import Mathlib

/-!
# consulUtil: service discovery cache, balancer and resolution orchestrator

A shallow embedding of `consulUtil/discovery.go` and `consulUtil/discoverys.go`.

Modelling conventions.

* The package-level variables (`ConsulClient`, `cache`, `cacheTTL`,
  `roundRobinIndexes`, `serviceStatusMap`) are the fields of one explicit `State`;
  every function takes the state and returns the new one.
* A Go `map[string]V` is a `GoMap V`: a finite list of key/value pairs in which
  `set` keeps one binding per key.
* Go's `int` is `GoInt`: a 64-bit two's-complement integer. Addition wraps around
  (`wrapInt`), `%` is the truncated remainder `Int.tmod`, and indexing a slice out of
  range is a run-time panic.
* A call that can panic ends in an `Outcome`: it returned a value, or it panicked. The
  state that comes with a panic is the state of the package variables when the panic
  unwinds the call.
* A Go pointer that may be nil is an `Option`; a Go `error` is an `Option String`
  (`none` is `nil`); the pair `([]*api.ServiceEntry, error)` of `GetHealthyServices`,
  of which exactly one component is set, is an `Except String (List ServiceEntry)`.
* The entries of a slice `[]*api.ServiceEntry` and their `Service` fields are not nil, as
  in every answer of the registry client.
* `time.Time` and `time.Duration` are integers (nanoseconds); `Add` is `+` and
  `a.Before(b)` is `a < b`.
* Everything the code reads from outside (the clock, the registry's answer, the random
  generator) comes from an explicit `World` value, one for each iteration of the loop.
* Locks and log lines have no sequential effect and are left out.
-/

namespace ConsulUtil

/-! ## Go maps -/

/-- A Go `map[string]V` as a finite list of bindings. -/
structure GoMap (V : Type) where
  entries : List (String × V)
deriving DecidableEq, Repr

namespace GoMap

variable {V : Type}

/-- The empty map, `make(map[string]V)`. -/
def empty : GoMap V := ⟨[]⟩

/-- Lookup in a list of bindings: the first binding of the key. -/
def find : List (String × V) → String → Option V
  | [], _ => none
  | (k', v) :: rest, k => if k' = k then some v else find rest k

/-- The read `v, ok := m[k]`. -/
def get? (m : GoMap V) (k : String) : Option V := find m.entries k

/-- The bindings of the keys other than `k`. -/
def erase : List (String × V) → String → List (String × V)
  | [], _ => []
  | (k', v) :: rest, k => if k' = k then erase rest k else (k', v) :: erase rest k

/-- The write `m[k] = v`: the binding of `k` is replaced, every other binding is kept. -/
def set (m : GoMap V) (k : String) (v : V) : GoMap V :=
  ⟨(k, v) :: erase m.entries k⟩

end GoMap

/-! ## Go integers and panics -/

/-- The constant `math.MaxInt64`. -/
def maxInt : Int := 9223372036854775807

/-- The constant `math.MinInt64`. -/
def minInt : Int := -9223372036854775808

/-- Two's-complement wrap-around of a mathematical integer into 64 bits. -/
def wrapInt (x : Int) : Int := (x - minInt) % 18446744073709551616 + minInt

/-- A Go `int` on a 64-bit platform: an integer between `minInt` and `maxInt`. -/
structure GoInt where
  val : Int
  inRange : minInt ≤ val ∧ val ≤ maxInt
deriving DecidableEq

/-- The `int` that a mathematical integer wraps to. -/
def GoInt.ofInt (x : Int) : GoInt :=
  ⟨wrapInt x, by unfold wrapInt minInt maxInt; omega⟩

/-- The `int` 0, the value a map read gives for an absent key. -/
def GoInt.zero : GoInt := GoInt.ofInt 0

/-- The `int` 1. -/
def GoInt.one : GoInt := GoInt.ofInt 1

/-- Go's `+` on `int`: the sum, wrapped around. -/
instance : Add GoInt := ⟨fun a b => GoInt.ofInt (a.val + b.val)⟩

/-- How a call ends: it returns a value, or a run-time panic unwinds it. -/
inductive Outcome (α : Type) where
  | returned (value : α)
  | panicked (message : String)
deriving DecidableEq, Repr

/-- The message of the panic raised by `services[idx]` with `idx` out of range. -/
def indexOutOfRange (idx : Int) : String :=
  "runtime error: index out of range [" ++ toString idx ++ "]"

/-! ## Data model -/

/-- The fields of `api.AgentService` that the package reads. -/
structure AgentService where
  ID : String
  Service : String
  Address : String
  Port : Int
deriving DecidableEq, Repr

/-- An `api.ServiceEntry`: one healthy instance returned by the registry. -/
structure ServiceEntry where
  Service : AgentService
deriving DecidableEq, Repr

/-- The registry client `*api.Client`, built by `InitConsul` from the registry address. -/
structure Client where
  Address : String
deriving DecidableEq, Repr

/-- The struct `serviceCache`: the cached instances of one service and their expiry. -/
structure serviceCache where
  services : List ServiceEntry
  expireAt : Int
deriving DecidableEq, Repr

/-- The struct `ServiceResult`: the outcome of resolving one service name. -/
structure ServiceResult where
  ServiceName : String
  ServiceEntry : Option ServiceEntry
  BaseURL : String
  Success : Bool
deriving DecidableEq, Repr

/-- The type `LoadBalanceStrategy`, a string. -/
abbrev LoadBalanceStrategy := String

/-- The constant `RandomStrategy`. -/
def RandomStrategy : LoadBalanceStrategy := "random"

/-- The constant `RoundRobinStrategy`. -/
def RoundRobinStrategy : LoadBalanceStrategy := "round_robin"

/-- The package-level variables. `registryQueries` is a ghost trace: the service names
for which `ConsulClient.Health().Service` has been called, most recent first. -/
structure State where
  ConsulClient : Option Client
  cache : GoMap serviceCache
  cacheTTL : Int
  roundRobinIndexes : GoMap GoInt
  serviceStatusMap : GoMap ServiceResult
  registryQueries : List String
deriving DecidableEq

/-- The state at program start: no client, empty maps, a TTL of 20 seconds. -/
def State.init : State :=
  { ConsulClient := none
    cache := GoMap.empty
    cacheTTL := 20 * 1000000000
    roundRobinIndexes := GoMap.empty
    serviceStatusMap := GoMap.empty
    registryQueries := [] }

/-- What one iteration reads from outside the program: the clock at the freshness test
of `GetHealthyServices`, the registry's answer to `Health().Service(name, "", true, _)`,
the clock inside `updateCache`, and the number drawn by the random generator. -/
structure World where
  nowCheck : Int
  health : String → Except String (List ServiceEntry)
  nowUpdate : Int
  draw : Nat

/-! ## discovery.go -/

/-- The function `getCache`: the entry of the map, expired or not. -/
def getCache (st : State) (serviceName : String) : Option serviceCache :=
  st.cache.get? serviceName

/-- The function `updateCache`, run at clock value `now`: reads the TTL, then creates the
entry or overwrites both fields of the existing one. -/
def updateCache (st : State) (serviceName : String) (services : List ServiceEntry)
    (now : Int) : State :=
  let ttl := st.cacheTTL
  match st.cache.get? serviceName with
  | none =>
    let created : serviceCache := { services := services, expireAt := now + ttl }
    { st with cache := st.cache.set serviceName created }
  | some cacheItem =>
    let updated : serviceCache := { cacheItem with services := services, expireAt := now + ttl }
    { st with cache := st.cache.set serviceName updated }

/-- The function `SetCacheTTL`. -/
def SetCacheTTL (st : State) (ttl : Int) : Option String × State :=
  if ttl ≤ 0 then (some "cache TTL must be greater than 0", st)
  else (none, { st with cacheTTL := ttl })

/-- The function `GetHealthyServices`. -/
def GetHealthyServices (st : State) (serviceName : String) (useCache : Bool) (w : World) :
    Except String (List ServiceEntry) × State :=
  match st.ConsulClient with
  | none => (.error "consul client not initialized", st)
  | some _ =>
    let hit : Option serviceCache :=
      if useCache then
        match getCache st serviceName with
        | some cacheItem => if ¬ (cacheItem.expireAt < w.nowCheck) then some cacheItem else none
        | none => none
      else none
    match hit with
    | some cacheItem => (.ok cacheItem.services, st)
    | none =>
      let st1 := { st with registryQueries := serviceName :: st.registryQueries }
      match w.health serviceName with
      | .error err => (.error ("query healthy services failed: " ++ err), st1)
      | .ok services =>
        if services.length = 0 then
          (.error ("no healthy service found for: " ++ serviceName), st1)
        else (.ok services, updateCache st1 serviceName services w.nowUpdate)

/-- The function `SelectRandom`. `randomGenerator.Intn(len(services))` is a number below
`len(services)`; every such number is `draw % len(services)` for some `draw`. -/
def SelectRandom (services : List ServiceEntry) (draw : Nat) :
    Option ServiceEntry × Option String :=
  if services.length = 0 then (none, some "no services available to select")
  else
    let index := draw % services.length
    (services[index]?, none)

/-- The function `SelectRoundRobin`. The counter is read (0 when absent), the index is the
truncated remainder `currentIndex % len(services)`, the counter is stored back incremented
with wrap-around, and only then `services[idx]` is evaluated: it panics when `idx` is out of
range, which a negative counter causes. -/
def SelectRoundRobin (st : State) (services : List ServiceEntry) :
    Outcome (Option ServiceEntry) × State :=
  match services with
  | [] => (.returned none, st)
  | first :: _ =>
    let serviceName := first.Service.Service
    let currentIndex := (st.roundRobinIndexes.get? serviceName).getD GoInt.zero
    let idx := Int.tmod currentIndex.val services.length
    let st1 :=
      { st with roundRobinIndexes :=
          (st.roundRobinIndexes.set serviceName (currentIndex + GoInt.one)) }
    if idx < 0 then (.panicked (indexOutOfRange idx), st1)
    else
      match services[idx.toNat]? with
      | some entry => (.returned (some entry), st1)
      | none => (.panicked (indexOutOfRange idx), st1)

/-! ## discoverys.go -/

/-- The function `strconv.Itoa`. -/
def Itoa (n : Int) : String := toString n

/-- The statement `serviceStatusMap[serviceName] = result`. -/
def storeResult (st : State) (serviceName : String) (result : ServiceResult) : State :=
  { st with serviceStatusMap := st.serviceStatusMap.set serviceName result }

/-- The result that the loop body stores when resolving a name fails:
`ServiceResult{ServiceName: serviceName, Success: false}`. -/
def failedResult (serviceName : String) : ServiceResult :=
  { ServiceName := serviceName, ServiceEntry := none, BaseURL := "", Success := false }

/-- The result that the loop body stores when `selected` was chosen for a name. -/
def successResult (serviceName : String) (selected : ServiceEntry) : ServiceResult :=
  { ServiceName := serviceName, ServiceEntry := some selected,
    BaseURL := "http://" ++ selected.Service.Address ++ ":" ++ Itoa selected.Service.Port,
    Success := true }

/-- The body of the `for` loop of `SelectServiceFromNames` for one service name. It ends
by going on to the next name (`returned`) or by the panic of `SelectRoundRobin`, which
unwinds before any result of this name is stored. -/
def resolveName (st : State) (serviceName : String) (strategy : LoadBalanceStrategy)
    (useCache : Bool) (w : World) : Outcome Unit × State :=
  match GetHealthyServices st serviceName useCache w with
  | (.error _, st1) => (.returned (), storeResult st1 serviceName (failedResult serviceName))
  | (.ok services, st1) =>
    if services.length = 0 then
      (.returned (), storeResult st1 serviceName (failedResult serviceName))
    else if strategy = RandomStrategy then
      match SelectRandom services w.draw with
      | (some selected, none) =>
        (.returned (), storeResult st1 serviceName (successResult serviceName selected))
      | _ => (.returned (), storeResult st1 serviceName (failedResult serviceName))
    else if strategy = RoundRobinStrategy then
      match SelectRoundRobin st1 services with
      | (.panicked message, st2) => (.panicked message, st2)
      | (.returned (some selected), st2) =>
        (.returned (), storeResult st2 serviceName (successResult serviceName selected))
      | (.returned none, st2) =>
        (.returned (), storeResult st2 serviceName (failedResult serviceName))
    else (.returned (), storeResult st1 serviceName (failedResult serviceName))

/-- The `for` loop of `SelectServiceFromNames`; iteration `i` reads `worlds i`. A panic in
an iteration ends the loop. -/
def resolveLoop (st : State) (serviceNames : List String) (strategy : LoadBalanceStrategy)
    (useCache : Bool) (worlds : Nat → World) : Outcome Unit × State :=
  match serviceNames with
  | [] => (.returned (), st)
  | serviceName :: rest =>
    match resolveName st serviceName strategy useCache (worlds 0) with
    | (.panicked message, st1) => (.panicked message, st1)
    | (.returned _, st1) => resolveLoop st1 rest strategy useCache (fun i => worlds (i + 1))

/-- The function `SelectServiceFromNames`: it returns an error, returns nil
(`returned none`), or is unwound by a panic of its loop. -/
def SelectServiceFromNames (st : State) (serviceNames : List String)
    (strategy : LoadBalanceStrategy) (useCache : Bool) (worlds : Nat → World) :
    Outcome (Option String) × State :=
  match st.ConsulClient with
  | none => (.returned (some "consul client not initialized"), st)
  | some _ =>
    if serviceNames.length = 0 then
      (.returned (some "service names slice cannot be empty"), st)
    else
      match resolveLoop st serviceNames strategy useCache worlds with
      | (.panicked message, st1) => (.panicked message, st1)
      | (.returned _, st1) => (.returned none, st1)

/-- The function `GetServiceResult`. -/
def GetServiceResult (st : State) (serviceName : String) : Option ServiceResult :=
  st.serviceStatusMap.get? serviceName

/-! ## Harness definitions used by the statements -/

/-- The counter `roundRobinIndexes[serviceName]` as Go reads it: 0 when the key is absent. -/
def counterOf (st : State) (serviceName : String) : GoInt :=
  (st.roundRobinIndexes.get? serviceName).getD GoInt.zero

/-- `N` calls of `SelectRoundRobin` on the same list, with their outcomes in call order.
After call number `i` the rest of the program runs `between i` before the next call. A
panic ends the sequence. -/
def roundRobinCalls (between : Nat → State → State) (services : List ServiceEntry) :
    Nat → State → List (Outcome (Option ServiceEntry))
  | 0, _ => []
  | N + 1, st =>
    match SelectRoundRobin st services with
    | (.panicked message, _) => [.panicked message]
    | (.returned selected, st1) =>
      .returned selected :: roundRobinCalls (fun i => between (i + 1)) services N (between 0 st1)

/-- Whether resolving `serviceName` fails: the fetch reports an error (the registry query
failed or the registry returned no healthy instance), the fetched list is empty, or the
strategy is neither `random` nor `round_robin`. -/
def nameFails (st : State) (serviceName : String) (strategy : LoadBalanceStrategy)
    (useCache : Bool) (w : World) : Bool :=
  match (GetHealthyServices st serviceName useCache w).1 with
  | .error _ => true
  | .ok services =>
    decide (services.length = 0) ||
      (decide (strategy ≠ RandomStrategy) && decide (strategy ≠ RoundRobinStrategy))

/-- The number of names of a pass that fail, each judged in the state in which the loop
reaches it. -/
def failures (st : State) (serviceNames : List String) (strategy : LoadBalanceStrategy)
    (useCache : Bool) (worlds : Nat → World) : Nat :=
  match serviceNames with
  | [] => 0
  | serviceName :: rest =>
    (if nameFails st serviceName strategy useCache (worlds 0) then 1 else 0) +
      failures (resolveName st serviceName strategy useCache (worlds 0)).2 rest strategy
        useCache (fun i => worlds (i + 1))

/-- The `Success` flag that `GetServiceResult` reports for a name, if the name has a result. -/
def successOf (st : State) (serviceName : String) : Option Bool :=
  (GetServiceResult st serviceName).map (fun r => r.Success)

/-- The number of entries of the Status Table whose `Success` flag is `b`. -/
def countEntries (st : State) (b : Bool) : Nat :=
  (st.serviceStatusMap.entries.filter (fun p => p.2.Success == b)).length

/-- Repeated passes of `SelectServiceFromNames` over the same list: the state after the
first `k` passes, pass number `j` reading the worlds `worlds j`. -/
def runPasses (st : State) (serviceNames : List String) (strategy : LoadBalanceStrategy)
    (useCache : Bool) (worlds : Nat → Nat → World) : Nat → State
  | 0 => st
  | k + 1 =>
    (SelectServiceFromNames (runPasses st serviceNames strategy useCache worlds k) serviceNames
      strategy useCache (worlds k)).2

/-- A cache entry that has expired at every clock value at which the passes read the
cache. -/
def ExpiredAtEveryRead (item : serviceCache) (worlds : Nat → Nat → World) : Prop :=
  ∀ k j, item.expireAt < (worlds k j).nowCheck

/-- The registry's answers in the world `w` are those of the repeated passes: the instances
`instances` for `s`, no instance for `z`, and for no other name of `names` a list whose
first instance carries the service name `s`. -/
def SteadyRegistry (names : List String) (s z : String) (instances : List ServiceEntry)
    (w : World) : Prop :=
  w.health s = .ok instances ∧ w.health z = .ok [] ∧
    ∀ y l first, y ∈ names → y ≠ s → w.health y = .ok l → l.head? = some first →
      first.Service.Service ≠ s

/-- The cache cannot mislead the repeated passes: every entry that is not `expired` holds,
for `z`, nothing (there is no such entry); for `s`, exactly `instances`; for another name
of `names`, a list whose first instance does not carry the service name `s`. -/
def SteadyCache (names : List String) (s z : String) (instances : List ServiceEntry)
    (expired : serviceCache → Prop) (st : State) : Prop :=
  (∀ item, getCache st z = some item → expired item) ∧
    (∀ item, getCache st s = some item → item.services = instances ∨ expired item) ∧
    ∀ y item first, y ∈ names → y ≠ s → getCache st y = some item →
      item.services.head? = some first → first.Service.Service ≠ s ∨ expired item

/-- The list `l` may be fetched for the name `y` during the repeated passes: the registry
answers `l` for `y` in some iteration of some pass, or, when the cache is used, the cache
holds `l` for `y` before the first pass. -/
def MayBeFetched (st : State) (useCache : Bool) (worlds : Nat → Nat → World) (y : String)
    (l : List ServiceEntry) : Prop :=
  (∃ k j, (worlds k j).health y = .ok l) ∨
    (useCache = true ∧ ∃ item, getCache st y = some item ∧ item.services = l)

/-- The counter `roundRobinIndexes[t]` can be advanced by the repeated passes: `t` is the
service name carried by the first instance of a list that may be fetched for a name of the
list. -/
def CounterInUse (st : State) (names : List String) (useCache : Bool)
    (worlds : Nat → Nat → World) (t : String) : Prop :=
  ∃ y first rest, y ∈ names ∧ MayBeFetched st useCache worlds y (first :: rest) ∧
    first.Service.Service = t

/-- The part of `GetHealthyServices` after the cache test: the registry is queried and a
non-empty answer is cached. -/
def queryRegistry (st : State) (serviceName : String) (w : World) :
    Except String (List ServiceEntry) × State :=
  match w.health serviceName with
  | .error err =>
    (.error ("query healthy services failed: " ++ err),
      { st with registryQueries := serviceName :: st.registryQueries })
  | .ok services =>
    if services.length = 0 then
      (.error ("no healthy service found for: " ++ serviceName),
        { st with registryQueries := serviceName :: st.registryQueries })
    else
      (.ok services,
        updateCache { st with registryQueries := serviceName :: st.registryQueries }
          serviceName services w.nowUpdate)

/-- One call of `SelectServiceFromNames`: its arguments and the worlds its loop reads. -/
structure Call where
  serviceNames : List String
  strategy : LoadBalanceStrategy
  useCache : Bool
  worlds : Nat → World

/-- A sequence of calls of `SelectServiceFromNames`, run one after the other. A call that
panics leaves the state it had reached; the caller may recover and call again. -/
def runCalls (st : State) : List Call → State
  | [] => st
  | c :: rest =>
    runCalls (SelectServiceFromNames st c.serviceNames c.strategy c.useCache c.worlds).2 rest

/-- The call `c`, started in `st`, gets past the two guards of `SelectServiceFromNames` and
enters its loop. -/
def PassedGuards (st : State) (c : Call) : Prop :=
  st.ConsulClient ≠ none ∧ c.serviceNames ≠ []

/-- Iteration `j` of the loop over `names`, started in `st`, stores a result of `key`: the
list names `key` at position `j`, the iterations before `j` ran without a panic, and
iteration `j` itself ran to its end. -/
def IterationStores (st : State) (names : List String) (strategy : LoadBalanceStrategy)
    (useCache : Bool) (worlds : Nat → World) (j : Nat) (key : String) : Prop :=
  names[j]? = some key ∧
    (resolveLoop st (names.take j) strategy useCache worlds).1 = .returned () ∧
    (resolveName (resolveLoop st (names.take j) strategy useCache worlds).2 key strategy
      useCache (worlds j)).1 = .returned ()

/-- The iteration of the loop body that reads `w`, started in state `st` for `key`, stored
exactly the result `r`; and `r` is either the failed result or the successful result built
from an endpoint of the list that the iteration fetched for `key`. -/
def StepWrote (st : State) (key : String) (strategy : LoadBalanceStrategy) (useCache : Bool)
    (w : World) (r : ServiceResult) : Prop :=
  (resolveName st key strategy useCache w).2.serviceStatusMap =
      st.serviceStatusMap.set key r ∧
    (r = failedResult key ∨
      ∃ services e, (GetHealthyServices st key useCache w).1 = .ok services ∧ e ∈ services ∧
        r = successResult key e)

/-- No call of the sequence `calls`, run one after the other from `st`, stores a result of
`key`: each call is stopped by a guard, or no iteration of its loop stores a result of
`key`. -/
def Untouched (st : State) : List Call → String → Prop
  | [], _ => True
  | c :: rest, key =>
    (¬ (PassedGuards st c ∧
        ∃ j, IterationStores st c.serviceNames c.strategy c.useCache c.worlds j key)) ∧
      Untouched (SelectServiceFromNames st c.serviceNames c.strategy c.useCache c.worlds).2
        rest key

/-- The pass that wrote the result `r` of `key`, in the sequence `calls` run from `st0`:
the call `c`, after the calls `pre` and before the calls `post`, entered its loop;
iteration `i` stored exactly `r` for `key` (`IterationStores`, `StepWrote`); no later
iteration of that pass and no call of `post` stores a result of `key`. -/
def WrittenByPass (st0 : State) (calls : List Call) (key : String) (r : ServiceResult) : Prop :=
  ∃ pre c post i, calls = pre ++ c :: post ∧
    PassedGuards (runCalls st0 pre) c ∧
    IterationStores (runCalls st0 pre) c.serviceNames c.strategy c.useCache c.worlds i key ∧
    (∀ j, i < j →
      ¬ IterationStores (runCalls st0 pre) c.serviceNames c.strategy c.useCache c.worlds j
        key) ∧
    StepWrote
      (resolveLoop (runCalls st0 pre) (c.serviceNames.take i) c.strategy c.useCache
        c.worlds).2
      key c.strategy c.useCache (c.worlds i) r ∧
    Untouched
      (SelectServiceFromNames (runCalls st0 pre) c.serviceNames c.strategy c.useCache
        c.worlds).2 post key

/-- The endpoint `e` is one of the endpoints fetched for `key` in the pass that wrote the
result `r`: with `calls = pre ++ c :: post`, the call `c` entered its loop, iteration `i`
of it handled `key`, fetched a list containing `e` and stored exactly `r`, and no later
iteration of that pass and no call of `post` stores a result of `key`. -/
def FetchedInPass (st0 : State) (calls : List Call) (key : String) (r : ServiceResult)
    (e : ServiceEntry) : Prop :=
  ∃ pre c post i services, calls = pre ++ c :: post ∧
    PassedGuards (runCalls st0 pre) c ∧
    IterationStores (runCalls st0 pre) c.serviceNames c.strategy c.useCache c.worlds i key ∧
    (∀ j, i < j →
      ¬ IterationStores (runCalls st0 pre) c.serviceNames c.strategy c.useCache c.worlds j
        key) ∧
    (GetHealthyServices
      (resolveLoop (runCalls st0 pre) (c.serviceNames.take i) c.strategy c.useCache
        c.worlds).2
      key c.useCache (c.worlds i)).1 = .ok services ∧
    e ∈ services ∧
    (resolveName
      (resolveLoop (runCalls st0 pre) (c.serviceNames.take i) c.strategy c.useCache
        c.worlds).2
      key c.strategy c.useCache (c.worlds i)).2.serviceStatusMap =
      (resolveLoop (runCalls st0 pre) (c.serviceNames.take i) c.strategy c.useCache
        c.worlds).2.serviceStatusMap.set key r ∧
    Untouched
      (SelectServiceFromNames (runCalls st0 pre) c.serviceNames c.strategy c.useCache
        c.worlds).2 post key

/-- The decimal rendering of a natural number, written from positional notation and
independently of `Itoa`: the base-10 digits (`Nat.digits`), most significant first, each as
its digit character; `0` is rendered `0`. -/
def decimalNat (n : Nat) : String :=
  if n = 0 then "0" else String.mk ((Nat.digits 10 n).reverse.map Nat.digitChar)

/-- The decimal rendering of an integer: a minus sign for a negative number, then the
decimal rendering of its magnitude. -/
def decimal (n : Int) : String :=
  if n < 0 then "-" ++ decimalNat n.natAbs else decimalNat n.natAbs

/-! ## Example data -/

/-- First instance of service `svc-a`. -/
def instA1 : ServiceEntry := ⟨⟨"a1", "svc-a", "10.0.0.1", 8080⟩⟩

/-- Second instance of service `svc-a`. -/
def instA2 : ServiceEntry := ⟨⟨"a2", "svc-a", "10.0.0.2", 8081⟩⟩

/-- Third instance of service `svc-a`. -/
def instA3 : ServiceEntry := ⟨⟨"a3", "svc-a", "10.0.0.3", 8082⟩⟩

/-- An instance of service `svc-b`. -/
def instB1 : ServiceEntry := ⟨⟨"b1", "svc-b", "10.0.1.1", 9090⟩⟩

/-- An instance that the registry lists under `svc-c` although it carries the service
name `svc-a`. -/
def instC1 : ServiceEntry := ⟨⟨"c1", "svc-a", "10.0.2.1", 7070⟩⟩

/-- A state right after `InitConsul`: the client is set, every map is empty. -/
def readyState : State := { State.init with ConsulClient := some ⟨"localhost:8500"⟩ }

/-- A registry that knows two instances of `svc-a` and no instance of any other service,
read at clock value 5. -/
def worldA : World :=
  { nowCheck := 5
    health := fun n => if n = "svc-a" then .ok [instA1, instA2] else .ok []
    nowUpdate := 5
    draw := 0 }

/-- A registry that knows three instances of `svc-a` and no instance of any other service,
read at clock value 5. -/
def worldA3 : World :=
  { nowCheck := 5
    health := fun n => if n = "svc-a" then .ok [instA1, instA2, instA3] else .ok []
    nowUpdate := 5
    draw := 0 }

/-- A registry that knows one instance of `svc-b` (and nothing else), read at clock
value 1. -/
def worldB : World :=
  { nowCheck := 1
    health := fun n => if n = "svc-b" then .ok [instB1] else .ok []
    nowUpdate := 1
    draw := 0 }

/-- A registry that knows two instances of `svc-a`, lists `instC1` under `svc-c`, and knows
no instance of any other service. -/
def worldC : World :=
  { nowCheck := 5
    health := fun n =>
      if n = "svc-a" then .ok [instA1, instA2]
      else if n = "svc-c" then .ok [instC1] else .ok []
    nowUpdate := 5
    draw := 0 }

/-- A registry that knows only the third instance of `svc-a`, read at clock value 1. -/
def worldOldA : World :=
  { nowCheck := 1
    health := fun n => if n = "svc-a" then .ok [instA3] else .ok []
    nowUpdate := 1
    draw := 0 }

/-- The state after a pass over `svc-b` alone, which fails: the Status Table holds one
failed result. -/
def afterFailedB : State :=
  (SelectServiceFromNames readyState ["svc-b"] RoundRobinStrategy false (fun _ => worldA)).2

/-- The state after `GetHealthyServices` has fetched and cached `svc-a` at clock value 5. -/
def afterFetchA : State := (GetHealthyServices readyState "svc-a" false worldA).2

/-- The state after `GetHealthyServices` has fetched and cached `svc-b` at clock value 1,
while the registry still knew an instance of it. -/
def afterFetchB : State := (GetHealthyServices readyState "svc-b" false worldB).2

/-- The state after `GetHealthyServices` has fetched and cached `svc-a` at clock value 1,
while the registry knew only its third instance. -/
def afterFetchOldA : State := (GetHealthyServices readyState "svc-a" false worldOldA).2

/-- The state after `InitConsul` in which the counter of `svc-a` has reached
`math.MaxInt64`. -/
def maxedState : State :=
  { readyState with
    roundRobinIndexes := (GoMap.empty.set "svc-a" (GoInt.ofInt maxInt)) }

/-- The state after one call of `SelectRoundRobin` on the three instances of `svc-a` in
`maxedState`: the counter of `svc-a` has wrapped around to `math.MinInt64`. -/
def wrappedState : State := (SelectRoundRobin maxedState [instA1, instA2, instA3]).2

/-! ## Reachable states -/

/-- The states the package can be in: it starts in `State.init`, `InitConsul` sets the
client, and every exported function that writes a package variable may run any number of
times, in any order and with any arguments. -/
inductive Reachable : State → Prop
  | start : Reachable State.init
  | initConsul (st : State) (client : Client) :
      Reachable st → Reachable { st with ConsulClient := some client }
  | setCacheTTL (st : State) (ttl : Int) : Reachable st → Reachable (SetCacheTTL st ttl).2
  | getHealthyServices (st : State) (serviceName : String) (useCache : Bool) (w : World) :
      Reachable st → Reachable (GetHealthyServices st serviceName useCache w).2
  | selectRoundRobin (st : State) (services : List ServiceEntry) :
      Reachable st → Reachable (SelectRoundRobin st services).2
  | selectServiceFromNames (st : State) (serviceNames : List String)
      (strategy : LoadBalanceStrategy) (useCache : Bool) (worlds : Nat → World) :
      Reachable st →
        Reachable (SelectServiceFromNames st serviceNames strategy useCache worlds).2

/-! ## Lemmas on Go maps -/

namespace GoMap

variable {V : Type}

theorem find_erase_ne (l : List (String × V)) (k k' : String) (h : k' ≠ k) :
    find (erase l k) k' = find l k' := by
  induction l with
  | nil => rfl
  | cons p rest ih =>
    obtain ⟨a, b⟩ := p
    by_cases hak : a = k
    · have hne : ¬ a = k' := fun e => h (e.symm.trans hak)
      simp only [erase, find, if_pos hak, if_neg hne, ih]
    · by_cases hak' : a = k'
      · simp only [erase, find, if_neg hak, if_pos hak']
      · simp only [erase, find, if_neg hak, if_neg hak', ih]

theorem mem_erase (l : List (String × V)) (k : String) (p : String × V) :
    p ∈ erase l k ↔ p ∈ l ∧ p.1 ≠ k := by
  induction l with
  | nil => simp [erase]
  | cons q rest ih =>
    obtain ⟨a, b⟩ := q
    by_cases hak : a = k
    · simp only [erase, hak, if_true, ih, List.mem_cons]
      constructor
      · rintro ⟨h1, h2⟩
        exact ⟨Or.inr h1, h2⟩
      · rintro ⟨h1 | h1, h2⟩
        · exact absurd (by rw [h1]) h2
        · exact ⟨h1, h2⟩
    · simp only [erase, hak, if_false, ih, List.mem_cons]
      constructor
      · rintro (h1 | ⟨h1, h2⟩)
        · exact ⟨Or.inl h1, by rw [h1]; exact hak⟩
        · exact ⟨Or.inr h1, h2⟩
      · rintro ⟨h1 | h1, h2⟩
        · exact Or.inl h1
        · exact Or.inr ⟨h1, h2⟩

theorem get?_set_same (m : GoMap V) (k : String) (v : V) : (m.set k v).get? k = some v := by
  simp [get?, set, find]

theorem get?_set_other (m : GoMap V) (k k' : String) (v : V) (h : k' ≠ k) :
    (m.set k v).get? k' = m.get? k' := by
  have hne : ¬ k = k' := fun e => h e.symm
  simp [get?, set, find, hne, find_erase_ne _ _ _ h]

theorem mem_set (m : GoMap V) (k : String) (v : V) (p : String × V) :
    p ∈ (m.set k v).entries ↔ p = (k, v) ∨ (p ∈ m.entries ∧ p.1 ≠ k) := by
  simp [set, mem_erase]

theorem erase_of_find_none (l : List (String × V)) (k : String)
    (h : find l k = none) : erase l k = l := by
  induction l with
  | nil => rfl
  | cons p rest ih =>
    obtain ⟨a, b⟩ := p
    by_cases hak : a = k
    · simp [find, hak] at h
    · simp only [find, if_neg hak] at h
      simp only [erase, if_neg hak, ih h]

end GoMap

/-! ## Lemmas on Go integers -/

theorem GoInt.zero_val : GoInt.zero.val = 0 := by decide

theorem GoInt.add_one_val (c : GoInt) (h : c.val < maxInt) :
    (c + GoInt.one).val = c.val + 1 := by
  have hr := c.inRange
  show wrapInt (c.val + wrapInt 1) = _
  unfold wrapInt minInt maxInt at *
  omega

theorem GoInt.ext_val {a b : GoInt} (h : a.val = b.val) : a = b := by
  cases a
  cases b
  simp only at h
  subst h
  rfl

/-! ## Round-robin selection -/

theorem counterOf_set_same (st : State) (k : String) (v : GoInt) :
    counterOf { st with roundRobinIndexes := st.roundRobinIndexes.set k v } k = v := by
  simp [counterOf, GoMap.get?_set_same]

theorem counterOf_set_other (st : State) (k k' : String) (v : GoInt) (h : k' ≠ k) :
    counterOf { st with roundRobinIndexes := st.roundRobinIndexes.set k v } k' =
      counterOf st k' := by
  simp [counterOf, GoMap.get?_set_other _ _ _ _ h]

theorem counterOf_congr (st st1 : State) (h : st1.roundRobinIndexes = st.roundRobinIndexes)
    (k : String) : counterOf st1 k = counterOf st k := by
  simp [counterOf, h]

theorem SelectRoundRobin_state (st : State) (first : ServiceEntry) (rest : List ServiceEntry) :
    (SelectRoundRobin st (first :: rest)).2 =
      { st with roundRobinIndexes := (st.roundRobinIndexes.set first.Service.Service
          (counterOf st first.Service.Service + GoInt.one)) } := by
  unfold SelectRoundRobin counterOf
  simp only []
  split
  · rfl
  · split <;> rfl

theorem index_inRange (c : Int) (n : Nat) (hc : 0 ≤ c) (hn : 0 < n) :
    Int.tmod c n = c % n ∧ 0 ≤ c % (n : Int) ∧ (c % (n : Int)).toNat < n := by
  have hn' : (0 : Int) < n := by exact_mod_cast hn
  refine ⟨Int.tmod_eq_emod hc (le_of_lt hn'), Int.emod_nonneg _ (ne_of_gt hn'), ?_⟩
  have h1 := Int.emod_lt_of_pos c hn'
  have h2 := Int.emod_nonneg c (ne_of_gt hn')
  omega

theorem SelectRoundRobin_returned (st : State) (first : ServiceEntry)
    (rest : List ServiceEntry) (h0 : 0 ≤ (counterOf st first.Service.Service).val) :
    ∃ e, (first :: rest)[((counterOf st first.Service.Service).val %
          ((first :: rest).length : Int)).toNat]? = some e ∧
      e ∈ first :: rest ∧
      (SelectRoundRobin st (first :: rest)).1 = .returned (some e) := by
  obtain ⟨h1, h2, h3⟩ :=
    index_inRange (counterOf st first.Service.Service).val (first :: rest).length h0 (by simp)
  refine ⟨(first :: rest)[((counterOf st first.Service.Service).val %
      ((first :: rest).length : Int)).toNat], List.getElem?_eq_getElem h3,
    List.getElem_mem h3, ?_⟩
  unfold SelectRoundRobin
  simp only []
  have hidx : ¬ (Int.tmod ((st.roundRobinIndexes.get? first.Service.Service).getD GoInt.zero).val
      ((first :: rest).length : Int) < 0) := by
    show ¬ (Int.tmod (counterOf st first.Service.Service).val _ < 0)
    rw [h1]
    omega
  rw [if_neg hidx]
  have hget : (first :: rest)[(Int.tmod
      ((st.roundRobinIndexes.get? first.Service.Service).getD GoInt.zero).val
      ((first :: rest).length : Int)).toNat]? = some ((first :: rest)[((counterOf st
        first.Service.Service).val % ((first :: rest).length : Int)).toNat]) := by
    show (first :: rest)[(Int.tmod (counterOf st first.Service.Service).val _).toNat]? = _
    rw [h1]
    exact List.getElem?_eq_getElem h3
  rw [hget]

theorem SelectRoundRobin_outcomes (st : State) (services : List ServiceEntry)
    (h : services.length ≠ 0) :
    (∃ e, e ∈ services ∧ (SelectRoundRobin st services).1 = .returned (some e)) ∨
      ∃ message, (SelectRoundRobin st services).1 = .panicked message := by
  cases services with
  | nil => simp at h
  | cons first rest =>
    unfold SelectRoundRobin
    simp only []
    split
    · exact Or.inr ⟨_, rfl⟩
    · split
      · rename_i entry hentry
        exact Or.inl ⟨entry, List.getElem?_mem hentry, rfl⟩
      · exact Or.inr ⟨_, rfl⟩

theorem SelectRoundRobin_frame (st : State) (services : List ServiceEntry) :
    (SelectRoundRobin st services).2.serviceStatusMap = st.serviceStatusMap
      ∧ (SelectRoundRobin st services).2.ConsulClient = st.ConsulClient
      ∧ (SelectRoundRobin st services).2.cache = st.cache
      ∧ (SelectRoundRobin st services).2.cacheTTL = st.cacheTTL
      ∧ (SelectRoundRobin st services).2.registryQueries = st.registryQueries := by
  cases services with
  | nil => simp [SelectRoundRobin]
  | cons first rest => simp [SelectRoundRobin_state]

theorem head_name_cons {services : List ServiceEntry} {s : String}
    (hs : (services.head?).map (fun e => e.Service.Service) = some s) :
    ∃ first rest, services = first :: rest ∧ first.Service.Service = s := by
  cases services with
  | nil => simp at hs
  | cons first rest => exact ⟨first, rest, rfl, by simpa using hs⟩

/-! ## The loop body -/

theorem GetHealthyServices_frame (st : State) (n : String) (u : Bool) (w : World) :
    (GetHealthyServices st n u w).2.serviceStatusMap = st.serviceStatusMap
      ∧ (GetHealthyServices st n u w).2.ConsulClient = st.ConsulClient
      ∧ (GetHealthyServices st n u w).2.roundRobinIndexes = st.roundRobinIndexes
      ∧ (GetHealthyServices st n u w).2.cacheTTL = st.cacheTTL := by
  unfold GetHealthyServices
  cases hc : st.ConsulClient with
  | none => simp [hc]
  | some c =>
    simp only []
    split
    · simp [hc]
    · split
      · simp [hc]
      · split
        · simp [hc]
        · unfold updateCache
          split <;> simp [hc]

theorem SelectRandom_nonempty (services : List ServiceEntry) (draw : Nat)
    (h : services.length ≠ 0) :
    ∃ e, e ∈ services ∧ SelectRandom services draw = (some e, none) := by
  have hlt : draw % services.length < services.length := Nat.mod_lt _ (by omega)
  refine ⟨services[draw % services.length], List.getElem_mem hlt, ?_⟩
  simp [SelectRandom, h, List.getElem?_eq_getElem hlt]

theorem roundRobin_ne_random : RoundRobinStrategy ≠ RandomStrategy := by decide

theorem resolveName_error (st st1 : State) (n : String) (strategy : LoadBalanceStrategy)
    (u : Bool) (w : World) (err : String)
    (h : GetHealthyServices st n u w = (.error err, st1)) :
    resolveName st n strategy u w = (.returned (), storeResult st1 n (failedResult n)) := by
  simp [resolveName, h]

theorem resolveName_empty (st st1 : State) (n : String) (strategy : LoadBalanceStrategy)
    (u : Bool) (w : World) (services : List ServiceEntry)
    (h : GetHealthyServices st n u w = (.ok services, st1)) (hlen : services.length = 0) :
    resolveName st n strategy u w = (.returned (), storeResult st1 n (failedResult n)) := by
  simp [resolveName, h, hlen]

theorem resolveName_unknown (st st1 : State) (n : String) (strategy : LoadBalanceStrategy)
    (u : Bool) (w : World) (services : List ServiceEntry)
    (h : GetHealthyServices st n u w = (.ok services, st1))
    (hrand : strategy ≠ RandomStrategy) (hrr : strategy ≠ RoundRobinStrategy) :
    resolveName st n strategy u w = (.returned (), storeResult st1 n (failedResult n)) := by
  by_cases hlen : services.length = 0
  · exact resolveName_empty st st1 n strategy u w services h hlen
  · simp [resolveName, h, hlen, hrand, hrr]

theorem resolveName_random (st st1 : State) (n : String) (u : Bool) (w : World)
    (services : List ServiceEntry) (e : ServiceEntry)
    (h : GetHealthyServices st n u w = (.ok services, st1)) (hlen : services.length ≠ 0)
    (hsel : SelectRandom services w.draw = (some e, none)) :
    resolveName st n RandomStrategy u w =
      (.returned (), storeResult st1 n (successResult n e)) := by
  simp [resolveName, h, hlen, hsel]

theorem resolveName_roundRobin (st st1 : State) (n : String) (u : Bool) (w : World)
    (services : List ServiceEntry) (e : ServiceEntry)
    (h : GetHealthyServices st n u w = (.ok services, st1)) (hlen : services.length ≠ 0)
    (hsel : (SelectRoundRobin st1 services).1 = .returned (some e)) :
    resolveName st n RoundRobinStrategy u w =
      (.returned (), storeResult (SelectRoundRobin st1 services).2 n (successResult n e)) := by
  unfold resolveName
  rw [h]
  simp only [hlen, if_false, roundRobin_ne_random, if_true]
  cases hsrr : SelectRoundRobin st1 services with
  | mk o st2 =>
    rw [hsrr] at hsel
    simp only [] at hsel
    subst hsel
    rfl

theorem resolveName_roundRobin_panicked (st st1 : State) (n : String) (u : Bool) (w : World)
    (services : List ServiceEntry) (message : String)
    (h : GetHealthyServices st n u w = (.ok services, st1)) (hlen : services.length ≠ 0)
    (hsel : (SelectRoundRobin st1 services).1 = .panicked message) :
    resolveName st n RoundRobinStrategy u w =
      (.panicked message, (SelectRoundRobin st1 services).2) := by
  unfold resolveName
  rw [h]
  simp only [hlen, if_false, roundRobin_ne_random, if_true]
  cases hsrr : SelectRoundRobin st1 services with
  | mk o st2 =>
    rw [hsrr] at hsel
    simp only [] at hsel
    subst hsel
    rfl

theorem resolveName_cases (st : State) (n : String) (strategy : LoadBalanceStrategy)
    (u : Bool) (w : World) :
    (resolveName st n strategy u w).2.ConsulClient = st.ConsulClient ∧
    ((∃ message, (resolveName st n strategy u w).1 = .panicked message ∧
        (resolveName st n strategy u w).2.serviceStatusMap = st.serviceStatusMap) ∨
      ((resolveName st n strategy u w).1 = .returned () ∧
        nameFails st n strategy u w = true ∧
        (resolveName st n strategy u w).2.serviceStatusMap =
          st.serviceStatusMap.set n (failedResult n)) ∨
      ((resolveName st n strategy u w).1 = .returned () ∧
        nameFails st n strategy u w = false ∧
        ∃ services e, (GetHealthyServices st n u w).1 = .ok services ∧ e ∈ services ∧
          (resolveName st n strategy u w).2.serviceStatusMap =
            st.serviceStatusMap.set n (successResult n e))) := by
  obtain ⟨hG1, hG2, -, -⟩ := GetHealthyServices_frame st n u w
  cases hres : GetHealthyServices st n u w with
  | mk res st1 =>
    rw [hres] at hG1 hG2
    simp only [] at hG1 hG2
    cases res with
    | error err =>
      rw [resolveName_error st st1 n strategy u w err hres]
      simp [storeResult, hG1, hG2, nameFails, hres]
    | ok services =>
      by_cases hlen : services.length = 0
      · rw [resolveName_empty st st1 n strategy u w services hres hlen]
        simp [storeResult, hG1, hG2, nameFails, hres, hlen]
      · by_cases hrand : strategy = RandomStrategy
        · obtain ⟨e, hmem, hsel⟩ := SelectRandom_nonempty services w.draw hlen
          subst hrand
          rw [resolveName_random st st1 n u w services e hres hlen hsel]
          refine ⟨hG2, Or.inr (Or.inr ⟨rfl, ?_, services, e, rfl, hmem, ?_⟩)⟩
          · simp [nameFails, hres, hlen]
          · simp [storeResult, hG1]
        · by_cases hrr : strategy = RoundRobinStrategy
          · obtain ⟨hR1, hR2, -⟩ := SelectRoundRobin_frame st1 services
            subst hrr
            rcases SelectRoundRobin_outcomes st1 services hlen with
              ⟨e, hmem, hsel⟩ | ⟨message, hsel⟩
            · rw [resolveName_roundRobin st st1 n u w services e hres hlen hsel]
              refine ⟨?_, Or.inr (Or.inr ⟨rfl, ?_, services, e, rfl, hmem, ?_⟩)⟩
              · simp [storeResult, hR2, hG2]
              · simp [nameFails, hres, hlen]
              · simp [storeResult, hG1, hR1]
            · rw [resolveName_roundRobin_panicked st st1 n u w services message hres hlen hsel]
              exact ⟨by rw [hR2, hG2], Or.inl ⟨message, rfl, by rw [hR1, hG1]⟩⟩
          · rw [resolveName_unknown st st1 n strategy u w services hres hrand hrr]
            simp [storeResult, hG1, hG2, nameFails, hres, hrand, hrr]

/-! ## The loop -/

theorem resolveLoop_cons_returned (st : State) (n : String) (rest : List String)
    (strategy : LoadBalanceStrategy) (u : Bool) (ws : Nat → World)
    (h : (resolveName st n strategy u (ws 0)).1 = .returned ()) :
    resolveLoop st (n :: rest) strategy u ws =
      resolveLoop (resolveName st n strategy u (ws 0)).2 rest strategy u
        (fun i => ws (i + 1)) := by
  rw [resolveLoop]
  cases hres : resolveName st n strategy u (ws 0) with
  | mk o st1 =>
    rw [hres] at h
    simp only [] at h
    subst h
    rfl

theorem resolveLoop_cons_panicked (st : State) (n : String) (rest : List String)
    (strategy : LoadBalanceStrategy) (u : Bool) (ws : Nat → World) (message : String)
    (h : (resolveName st n strategy u (ws 0)).1 = .panicked message) :
    resolveLoop st (n :: rest) strategy u ws =
      (.panicked message, (resolveName st n strategy u (ws 0)).2) := by
  rw [resolveLoop]
  cases hres : resolveName st n strategy u (ws 0) with
  | mk o st1 =>
    rw [hres] at h
    simp only [] at h
    subst h
    rfl

theorem outcome_unit_cases (o : Outcome Unit) :
    o = .returned () ∨ ∃ message, o = .panicked message := by
  cases o with
  | returned v => exact Or.inl rfl
  | panicked m => exact Or.inr ⟨m, rfl⟩

theorem resolveName_get_same (st : State) (n : String) (strategy : LoadBalanceStrategy)
    (u : Bool) (w : World) (h : (resolveName st n strategy u w).1 = .returned ()) :
    ∃ r, GetServiceResult (resolveName st n strategy u w).2 n = some r ∧
      r.Success = !nameFails st n strategy u w := by
  obtain ⟨-, ⟨m, hm, -⟩ | ⟨-, hf, ht⟩ | ⟨-, hf, services, e, -, -, ht⟩⟩ :=
    resolveName_cases st n strategy u w
  · rw [h] at hm
    cases hm
  · exact ⟨failedResult n, by simp [GetServiceResult, ht, GoMap.get?_set_same],
      by simp [hf, failedResult]⟩
  · exact ⟨successResult n e, by simp [GetServiceResult, ht, GoMap.get?_set_same],
      by simp [hf, successResult]⟩

theorem resolveName_get_other (st : State) (n k : String) (strategy : LoadBalanceStrategy)
    (u : Bool) (w : World) (h : k ≠ n) :
    GetServiceResult (resolveName st n strategy u w).2 k = GetServiceResult st k := by
  obtain ⟨-, ⟨m, -, ht⟩ | ⟨-, -, ht⟩ | ⟨-, -, services, e, -, -, ht⟩⟩ :=
    resolveName_cases st n strategy u w
  · simp [GetServiceResult, ht]
  · simp [GetServiceResult, ht, GoMap.get?_set_other _ _ _ _ h]
  · simp [GetServiceResult, ht, GoMap.get?_set_other _ _ _ _ h]

theorem resolveLoop_client (names : List String) (strategy : LoadBalanceStrategy) (u : Bool) :
    ∀ (st : State) (worlds : Nat → World),
      (resolveLoop st names strategy u worlds).2.ConsulClient = st.ConsulClient := by
  induction names with
  | nil => intro st worlds; rfl
  | cons n rest ih =>
    intro st worlds
    rcases outcome_unit_cases (resolveName st n strategy u (worlds 0)).1 with h | ⟨m, h⟩
    · rw [resolveLoop_cons_returned st n rest strategy u worlds h, ih,
        (resolveName_cases st n strategy u (worlds 0)).1]
    · rw [resolveLoop_cons_panicked st n rest strategy u worlds m h]
      exact (resolveName_cases st n strategy u (worlds 0)).1

theorem resolveLoop_get_other (names : List String) (strategy : LoadBalanceStrategy) (u : Bool)
    (k : String) (hk : k ∉ names) :
    ∀ (st : State) (worlds : Nat → World),
      GetServiceResult (resolveLoop st names strategy u worlds).2 k = GetServiceResult st k := by
  induction names with
  | nil => intro st worlds; rfl
  | cons n rest ih =>
    intro st worlds
    have hkn : k ≠ n := fun e => hk (by simp [e])
    have hkrest : k ∉ rest := fun e => hk (List.mem_cons_of_mem _ e)
    rcases outcome_unit_cases (resolveName st n strategy u (worlds 0)).1 with h | ⟨m, h⟩
    · rw [resolveLoop_cons_returned st n rest strategy u worlds h, ih hkrest,
        resolveName_get_other st n k strategy u (worlds 0) hkn]
    · rw [resolveLoop_cons_panicked st n rest strategy u worlds m h]
      exact resolveName_get_other st n k strategy u (worlds 0) hkn

theorem resolveLoop_head_returned (st : State) (n : String) (rest : List String)
    (strategy : LoadBalanceStrategy) (u : Bool) (ws : Nat → World)
    (h : (resolveLoop st (n :: rest) strategy u ws).1 = .returned ()) :
    (resolveName st n strategy u (ws 0)).1 = .returned () := by
  rcases outcome_unit_cases (resolveName st n strategy u (ws 0)).1 with h1 | ⟨m, h1⟩
  · exact h1
  · rw [resolveLoop_cons_panicked st n rest strategy u ws m h1] at h
    cases h

theorem resolveLoop_get_mem (names : List String) (strategy : LoadBalanceStrategy) (u : Bool)
    (k : String) (hk : k ∈ names) :
    ∀ (st : State) (worlds : Nat → World),
      (resolveLoop st names strategy u worlds).1 = .returned () →
      ∃ r, GetServiceResult (resolveLoop st names strategy u worlds).2 k = some r := by
  induction names with
  | nil => simp at hk
  | cons n rest ih =>
    intro st worlds hret
    have hhead := resolveLoop_head_returned st n rest strategy u worlds hret
    rw [resolveLoop_cons_returned st n rest strategy u worlds hhead] at hret ⊢
    by_cases hkrest : k ∈ rest
    · exact ih hkrest _ _ hret
    · have hkn : k = n := by
        rcases List.mem_cons.mp hk with h | h
        · exact h
        · exact absurd h hkrest
      rw [resolveLoop_get_other rest strategy u k hkrest, hkn]
      obtain ⟨r, hr, -⟩ := resolveName_get_same st n strategy u (worlds 0) hhead
      exact ⟨r, hr⟩

theorem resolveLoop_count (names : List String) (strategy : LoadBalanceStrategy) (u : Bool) :
    ∀ (st : State) (worlds : Nat → World), names.Nodup →
      (resolveLoop st names strategy u worlds).1 = .returned () →
      (names.filter (fun n =>
          successOf (resolveLoop st names strategy u worlds).2 n == some false)).length =
        failures st names strategy u worlds ∧
      (names.filter (fun n =>
          successOf (resolveLoop st names strategy u worlds).2 n == some true)).length +
        failures st names strategy u worlds = names.length := by
  induction names with
  | nil => intro st worlds _ _; simp [failures]
  | cons n rest ih =>
    intro st worlds hnodup hret
    have hn : n ∉ rest := (List.nodup_cons.mp hnodup).1
    have hhead := resolveLoop_head_returned st n rest strategy u worlds hret
    have hloop := resolveLoop_cons_returned st n rest strategy u worlds hhead
    rw [hloop] at hret
    obtain ⟨ihF, ihT⟩ := ih (resolveName st n strategy u (worlds 0)).2 (fun i => worlds (i + 1))
      (List.nodup_cons.mp hnodup).2 hret
    obtain ⟨r, hr, hsucc⟩ := resolveName_get_same st n strategy u (worlds 0) hhead
    have hsn : successOf (resolveLoop st (n :: rest) strategy u worlds).2 n =
        some (!nameFails st n strategy u (worlds 0)) := by
      rw [hloop]
      simp [successOf, resolveLoop_get_other rest strategy u n hn, hr, hsucc]
    rw [List.filter_cons, List.filter_cons, hsn]
    rw [← hloop] at ihF ihT
    cases hfail : nameFails st n strategy u (worlds 0) with
    | true =>
      simp only [failures, hfail, if_true, Bool.not_true]
      simp only [List.length_cons]
      refine ⟨?_, ?_⟩
      · simp [ihF]; omega
      · simp; omega
    | false =>
      simp only [failures, hfail, Bool.not_false]
      simp only [List.length_cons]
      refine ⟨?_, ?_⟩
      · simp [ihF]
      · simp; omega

theorem resolveName_entries_fresh (st : State) (n : String) (strategy : LoadBalanceStrategy)
    (u : Bool) (w : World) (hfresh : GetServiceResult st n = none)
    (h : (resolveName st n strategy u w).1 = .returned ()) :
    ∃ r, r.Success = (!nameFails st n strategy u w) ∧
      (resolveName st n strategy u w).2.serviceStatusMap.entries =
        (n, r) :: st.serviceStatusMap.entries := by
  have herase : GoMap.erase st.serviceStatusMap.entries n = st.serviceStatusMap.entries :=
    GoMap.erase_of_find_none _ _ hfresh
  obtain ⟨-, ⟨m, hm, -⟩ | ⟨-, hf, ht⟩ | ⟨-, hf, services, e, -, -, ht⟩⟩ :=
    resolveName_cases st n strategy u w
  · rw [h] at hm
    cases hm
  · exact ⟨failedResult n, by simp [hf, failedResult], by simp [ht, GoMap.set, herase]⟩
  · exact ⟨successResult n e, by simp [hf, successResult], by simp [ht, GoMap.set, herase]⟩

theorem resolveLoop_countEntries (names : List String) (strategy : LoadBalanceStrategy)
    (u : Bool) :
    ∀ (st : State) (worlds : Nat → World), names.Nodup →
      (resolveLoop st names strategy u worlds).1 = .returned () →
      (∀ n, n ∈ names → GetServiceResult st n = none) →
      countEntries (resolveLoop st names strategy u worlds).2 false =
        countEntries st false + failures st names strategy u worlds ∧
      countEntries (resolveLoop st names strategy u worlds).2 true +
          failures st names strategy u worlds =
        countEntries st true + names.length := by
  induction names with
  | nil => intro st worlds _ _ _; simp [failures, resolveLoop]
  | cons n rest ih =>
    intro st worlds hnodup hret hfresh
    have hn : n ∉ rest := (List.nodup_cons.mp hnodup).1
    have hhead := resolveLoop_head_returned st n rest strategy u worlds hret
    have hloop := resolveLoop_cons_returned st n rest strategy u worlds hhead
    rw [hloop] at hret
    obtain ⟨r, hr, hentries⟩ :=
      resolveName_entries_fresh st n strategy u (worlds 0) (hfresh n (by simp)) hhead
    have hfresh1 : ∀ m, m ∈ rest →
        GetServiceResult (resolveName st n strategy u (worlds 0)).2 m = none := by
      intro m hm
      have hmn : m ≠ n := fun e => hn (e ▸ hm)
      rw [resolveName_get_other st n m strategy u (worlds 0) hmn]
      exact hfresh m (List.mem_cons_of_mem _ hm)
    obtain ⟨ihF, ihT⟩ := ih (resolveName st n strategy u (worlds 0)).2 (fun i => worlds (i + 1))
      (List.nodup_cons.mp hnodup).2 hret hfresh1
    have hc : ∀ b, countEntries (resolveName st n strategy u (worlds 0)).2 b =
        (if r.Success == b then 1 else 0) + countEntries st b := by
      intro b
      unfold countEntries
      rw [hentries, List.filter_cons]
      by_cases hb : (r.Success == b) = true
      · simp [hb]; omega
      · simp [hb]
    rw [hloop, ihF, hc false]
    rw [hc true] at ihT
    cases hfail : nameFails st n strategy u (worlds 0) with
    | true =>
      rw [hfail] at hr
      simp only [failures, hfail, if_true, List.length_cons]
      simp [hr] at ihT ⊢
      omega
    | false =>
      rw [hfail] at hr
      simp only [failures, hfail, List.length_cons]
      simp [hr] at ihT ⊢
      omega

theorem SelectServiceFromNames_guarded (st : State) (names : List String)
    (strategy : LoadBalanceStrategy) (u : Bool) (worlds : Nat → World)
    (h : st.ConsulClient = none ∨ names = []) :
    ∃ msg, SelectServiceFromNames st names strategy u worlds = (.returned (some msg), st) := by
  unfold SelectServiceFromNames
  cases hc : st.ConsulClient with
  | none => exact ⟨_, rfl⟩
  | some c =>
    rcases h with h | h
    · rw [hc] at h
      cases h
    · subst h
      exact ⟨_, rfl⟩

theorem SelectServiceFromNames_run (st : State) (names : List String)
    (strategy : LoadBalanceStrategy) (u : Bool) (worlds : Nat → World)
    (hclient : st.ConsulClient ≠ none) (hnames : names ≠ []) :
    (SelectServiceFromNames st names strategy u worlds).2 =
        (resolveLoop st names strategy u worlds).2 ∧
      ((resolveLoop st names strategy u worlds).1 = .returned () →
        (SelectServiceFromNames st names strategy u worlds).1 = .returned none) ∧
      (∀ message, (resolveLoop st names strategy u worlds).1 = .panicked message →
        (SelectServiceFromNames st names strategy u worlds).1 = .panicked message) := by
  have hlen : names.length ≠ 0 := by
    cases names with
    | nil => exact absurd rfl hnames
    | cons a b => simp
  unfold SelectServiceFromNames
  cases hc : st.ConsulClient with
  | none => exact absurd hc hclient
  | some c =>
    simp only [hlen, if_false]
    cases hres : resolveLoop st names strategy u worlds with
    | mk o st1 =>
      cases o with
      | returned v => simp
      | panicked m => simp

theorem SelectServiceFromNames_returned_nil (st : State) (names : List String)
    (strategy : LoadBalanceStrategy) (u : Bool) (worlds : Nat → World)
    (h : (SelectServiceFromNames st names strategy u worlds).1 = .returned none) :
    st.ConsulClient ≠ none ∧ names ≠ [] ∧
      (resolveLoop st names strategy u worlds).1 = .returned () := by
  have hg : ¬ (st.ConsulClient = none ∨ names = []) := by
    intro hg
    obtain ⟨msg, hmsg⟩ := SelectServiceFromNames_guarded st names strategy u worlds hg
    rw [hmsg] at h
    cases h
  have hclient : st.ConsulClient ≠ none := fun e => hg (Or.inl e)
  have hnames : names ≠ [] := fun e => hg (Or.inr e)
  refine ⟨hclient, hnames, ?_⟩
  obtain ⟨-, -, hp⟩ := SelectServiceFromNames_run st names strategy u worlds hclient hnames
  rcases outcome_unit_cases (resolveLoop st names strategy u worlds).1 with h1 | ⟨m, h1⟩
  · exact h1
  · rw [hp m h1] at h
    cases h

/-! ## Round-robin sequences -/

theorem index_nat (c0 n : Nat) : (((c0 : Int) % (n : Int))).toNat = c0 % n := by
  rw [← Int.natCast_mod]
  exact Int.toNat_natCast _

theorem SelectRoundRobin_returned_nat (st : State) (first : ServiceEntry)
    (rest : List ServiceEntry) (c0 : Nat)
    (hc : (counterOf st first.Service.Service).val = (c0 : Int)) :
    c0 % (first :: rest).length < (first :: rest).length ∧
      (∃ e, (first :: rest)[c0 % (first :: rest).length]? = some e ∧ e ∈ first :: rest) ∧
      (SelectRoundRobin st (first :: rest)).1 =
        .returned ((first :: rest)[c0 % (first :: rest).length]?) := by
  obtain ⟨e, he, hmem, hsel⟩ :=
    SelectRoundRobin_returned st first rest (by rw [hc]; exact Int.natCast_nonneg c0)
  rw [hc, index_nat] at he
  exact ⟨Nat.mod_lt _ (by simp), ⟨e, he, hmem⟩, by rw [hsel, he]⟩

theorem roundRobinCalls_succ_returned (between : Nat → State → State)
    (services : List ServiceEntry) (N : Nat) (st : State) (v : Option ServiceEntry)
    (h : (SelectRoundRobin st services).1 = .returned v) :
    roundRobinCalls between services (N + 1) st =
      .returned v :: roundRobinCalls (fun i => between (i + 1)) services N
        (between 0 (SelectRoundRobin st services).2) := by
  rw [roundRobinCalls]
  cases hres : SelectRoundRobin st services with
  | mk o st1 =>
    rw [hres] at h
    simp only [] at h
    subst h
    rfl

theorem roundRobinCalls_eq (services : List ServiceEntry) (s : String)
    (hs : (services.head?).map (fun e => e.Service.Service) = some s) :
    ∀ (N : Nat) (st : State) (between : Nat → State → State) (c0 : Nat),
      (∀ i st', counterOf (between i st') s = counterOf st' s) →
      (counterOf st s).val = (c0 : Int) → (c0 : Int) + N ≤ maxInt + 1 →
      roundRobinCalls between services N st =
        (List.range N).map (fun i => Outcome.returned services[(c0 + i) % services.length]?) := by
  obtain ⟨first, rest, hservices, hfirst⟩ := head_name_cons hs
  subst hservices
  subst hfirst
  intro N
  induction N with
  | zero => intro st between c0 _ _ _; rfl
  | succ N ih =>
    intro st between c0 hbetween hc hN
    obtain ⟨-, -, hsel⟩ := SelectRoundRobin_returned_nat st first rest c0 hc
    rw [roundRobinCalls_succ_returned between (first :: rest) N st _ hsel,
      List.range_succ_eq_map, List.map_cons, List.map_map]
    congr 1
    cases N with
    | zero => rfl
    | succ M =>
      have hlt : (counterOf st first.Service.Service).val < maxInt := by
        rw [hc]
        push_cast at hN
        omega
      have hnext : (counterOf (between 0 (SelectRoundRobin st (first :: rest)).2)
          first.Service.Service).val = ((c0 + 1 : Nat) : Int) := by
        rw [hbetween, SelectRoundRobin_state, counterOf_set_same, GoInt.add_one_val _ hlt, hc]
        push_cast
        rfl
      rw [ih (between 0 (SelectRoundRobin st (first :: rest)).2) (fun i => between (i + 1))
        (c0 + 1) (fun i st' => hbetween (i + 1) st') hnext (by push_cast at hN ⊢; omega)]
      apply List.map_congr_left
      intro i _
      simp only [Function.comp, Nat.succ_eq_add_one]
      congr 3
      omega

theorem rotation_perm (n a : Nat) (hn : 0 < n) :
    ((List.range n).map (fun i => (a + i) % n)).Perm (List.range n) := by
  have hnodup : ((List.range n).map (fun i => (a + i) % n)).Nodup := by
    apply List.Nodup.map_on _ (List.nodup_range n)
    intro x hx y hy hxy
    have hx' : x < n := List.mem_range.mp hx
    have hy' : y < n := List.mem_range.mp hy
    have hmod : x ≡ y [MOD n] := Nat.ModEq.add_left_cancel' a hxy
    have h1 : x % n = y % n := hmod
    rwa [Nat.mod_eq_of_lt hx', Nat.mod_eq_of_lt hy'] at h1
  have hsub : (List.range n).map (fun i => (a + i) % n) ⊆ List.range n := by
    intro x hx
    obtain ⟨i, _, rfl⟩ := List.mem_map.mp hx
    exact List.mem_range.mpr (Nat.mod_lt _ hn)
  exact (List.subperm_of_subset hnodup hsub).perm_of_length_le (by simp)

theorem drop_map_range (f : Nat → Outcome (Option ServiceEntry)) (k n : Nat) :
    ((List.range (k + n)).map f).drop k = (List.range n).map (fun i => f (k + i)) := by
  rw [List.range_add, List.map_append, List.drop_left' (by simp), List.map_map]
  rfl

/-- Round-robin sequence while the counter stays in range. Let `services` be a non-empty
list whose first endpoint names service `s`, and let the counter stored for `s` before
the first call be the natural number `c0`. As long as the counter does not pass
`math.MaxInt64` before the last call (`c0 + N ≤ MaxInt64 + 1`), `N` calls of
`SelectRoundRobin` on the list, with only code that leaves the counter of `s` alone running
in between, return `services[(c0+0) mod n]`, ..., `services[(c0+N-1) mod n]`, each of them
an endpoint of the list; the `n` consecutive calls number `k`, ..., `k+n-1` return the
endpoints at the indexes `(c0+k+i) mod n`, `i < n`, which are a permutation of
`0, ..., n-1`. -/
theorem roundRobin_sequence (services : List ServiceEntry) (s : String)
    (hs : (services.head?).map (fun e => e.Service.Service) = some s)
    (st : State) (between : Nat → State → State)
    (hbetween : ∀ i st', counterOf (between i st') s = counterOf st' s)
    (c0 N : Nat) (hc : (counterOf st s).val = (c0 : Int))
    (hN : (c0 : Int) + N ≤ maxInt + 1) :
    roundRobinCalls between services N st =
        (List.range N).map (fun i => Outcome.returned services[(c0 + i) % services.length]?)
      ∧ (∀ i, ∃ e, services[(c0 + i) % services.length]? = some e ∧ e ∈ services)
      ∧ (∀ k, k + services.length ≤ N →
          (roundRobinCalls between services (k + services.length) st).drop k =
            ((List.range services.length).map (fun i => (c0 + k + i) % services.length)).map
              (fun j => Outcome.returned services[j]?) ∧
          ((List.range services.length).map (fun i => (c0 + k + i) % services.length)).Perm
              (List.range services.length)) := by
  have hpos : 0 < services.length := by
    obtain ⟨first, rest, hservices, _⟩ := head_name_cons hs
    simp [hservices]
  refine ⟨roundRobinCalls_eq services s hs N st between c0 hbetween hc hN, ?_, ?_⟩
  · intro i
    have hlt : (c0 + i) % services.length < services.length := Nat.mod_lt _ hpos
    exact ⟨services[(c0 + i) % services.length], List.getElem?_eq_getElem hlt,
      List.getElem_mem hlt⟩
  · intro k hk
    refine ⟨?_, rotation_perm services.length (c0 + k) hpos⟩
    rw [roundRobinCalls_eq services s hs (k + services.length) st between c0 hbetween hc
        (by push_cast; omega),
      drop_map_range, List.map_map]
    apply List.map_congr_left
    intro i _
    simp only [Function.comp, Nat.add_assoc]

/-- Witness of the in-range round-robin sequence: three calls on the two instances of
`svc-a`, starting from counter 0. -/
theorem roundRobin_sequence_witness :
    roundRobinCalls (fun _ st => st) [instA1, instA2] 3 readyState =
        (List.range 3).map
          (fun i => Outcome.returned [instA1, instA2][(0 + i) % [instA1, instA2].length]?)
      ∧ (∀ i, ∃ e, [instA1, instA2][(0 + i) % [instA1, instA2].length]? = some e ∧
          e ∈ [instA1, instA2])
      ∧ (∀ k, k + [instA1, instA2].length ≤ 3 →
          (roundRobinCalls (fun _ st => st) [instA1, instA2] (k + [instA1, instA2].length)
              readyState).drop k =
            ((List.range [instA1, instA2].length).map
              (fun i => (0 + k + i) % [instA1, instA2].length)).map
              (fun j => Outcome.returned [instA1, instA2][j]?) ∧
          ((List.range [instA1, instA2].length).map
            (fun i => (0 + k + i) % [instA1, instA2].length)).Perm
              (List.range [instA1, instA2].length)) :=
  roundRobin_sequence [instA1, instA2] "svc-a" rfl readyState (fun _ st => st)
    (fun _ _ => rfl) 0 3 (by decide) (by decide)

/-- C1, the code at the failing input. The counter of `svc-a` is `math.MaxInt64` and
`SelectRoundRobin` is called twice on three instances. The first call returns
`services[MaxInt64 mod 3] = services[1]` and stores the counter wrapped around to
`math.MinInt64`; the second call computes the index `MinInt64 % 3 = -2` and panics, where
the claim promises `services[(c0+1) mod 3] = services[2]`. -/
theorem roundRobin_overflow_panics :
    (counterOf maxedState "svc-a").val = maxInt ∧
    roundRobinCalls (fun _ st => st) [instA1, instA2, instA3] 2 maxedState =
      [.returned (some instA2), .panicked "runtime error: index out of range [-2]"] ∧
    (counterOf wrappedState "svc-a").val = minInt ∧
    [instA1, instA2, instA3][(maxInt + 1) % 3 |>.toNat]? = some instA3 := by
  decide

/-! ## Claims on the balancer, the TTL and the orchestrator's guards -/

theorem tmod_nonneg_eq (c : Int) (n : Nat) (hn : 0 < n) (h : 0 ≤ Int.tmod c n) :
    Int.tmod c n = c % (n : Int) := by
  have hn1 : (0 : Int) < n := by exact_mod_cast hn
  have h1 := Int.tmod_add_tdiv c n
  have h2 := Int.tmod_lt_of_pos c hn1
  have h3 : c % (n : Int) = (Int.tmod c n + (n : Int) * Int.tdiv c n) % (n : Int) := by rw [h1]
  rw [h3, Int.add_mul_emod_self_left, Int.emod_eq_of_lt h h2]

/-- Whenever `SelectRoundRobin` returns on a non-empty list, it returns the endpoint at the
index `counter mod n`. -/
theorem SelectRoundRobin_returned_index (st : State) (first : ServiceEntry)
    (rest : List ServiceEntry) (o : Option ServiceEntry)
    (h : (SelectRoundRobin st (first :: rest)).1 = .returned o) :
    ∃ e, o = some e ∧
      (first :: rest)[((counterOf st first.Service.Service).val %
        ((first :: rest).length : Int)).toNat]? = some e := by
  unfold SelectRoundRobin at h
  simp only [] at h
  split at h
  · cases h
  · rename_i hidx
    have heq := tmod_nonneg_eq
      ((st.roundRobinIndexes.get? first.Service.Service).getD GoInt.zero).val
      (first :: rest).length (by simp) (not_lt.mp hidx)
    split at h
    · rename_i entry hentry
      refine ⟨entry, ?_, ?_⟩
      · injection h with h1
        exact h1.symm
      · rw [heq] at hentry
        exact hentry
    · cases h

/-- C6, as amended. A call of `SelectRoundRobin` on an empty list returns nil and leaves the
whole state, every counter included, as it was. For a call on a non-empty list of length
`n` whose first endpoint names service `s`: whenever the call returns, it returns the
endpoint at the index that is the pre-call counter of `s` modulo `n`; every counter other
than that of `s` is left as it was; and when the counter of `s` holds a natural number `c`
below `math.MaxInt64`, the call returns the endpoint at index `c mod n` and adds exactly 1
to the counter of `s`. -/
theorem SelectRoundRobin_counter (st : State) (services : List ServiceEntry) :
    (services = [] → SelectRoundRobin st services = (.returned none, st)) ∧
    (∀ (s : String), (services.head?).map (fun e => e.Service.Service) = some s →
      (∀ o, (SelectRoundRobin st services).1 = .returned o →
        ∃ e, o = some e ∧
          services[((counterOf st s).val % (services.length : Int)).toNat]? = some e) ∧
      (∀ k, k ≠ s → counterOf (SelectRoundRobin st services).2 k = counterOf st k) ∧
      (∀ c : Nat, (counterOf st s).val = (c : Int) → (c : Int) < maxInt →
        c % services.length < services.length ∧
        (∃ e, services[c % services.length]? = some e ∧
          (SelectRoundRobin st services).1 = .returned (some e)) ∧
        (counterOf (SelectRoundRobin st services).2 s).val = (c : Int) + 1)) := by
  refine ⟨?_, ?_⟩
  · intro h
    subst h
    rfl
  · intro s hs
    obtain ⟨first, rest, hservices, hfirst⟩ := head_name_cons hs
    subst hservices
    subst hfirst
    refine ⟨?_, ?_, ?_⟩
    · intro o ho
      exact SelectRoundRobin_returned_index st first rest o ho
    · intro k hk
      rw [SelectRoundRobin_state]
      exact counterOf_set_other st _ k _ hk
    · intro c hc hlt
      obtain ⟨h1, ⟨e, he, -⟩, hsel⟩ := SelectRoundRobin_returned_nat st first rest c hc
      refine ⟨h1, ⟨e, he, by rw [hsel, he]⟩, ?_⟩
      rw [SelectRoundRobin_state, counterOf_set_same,
        GoInt.add_one_val _ (by rw [hc]; exact hlt), hc]

/-- Witness of C6: a call on the two instances of `svc-a` while the counter of `svc-a` is 0
returns the first instance and leaves the counter at 1. -/
theorem SelectRoundRobin_counter_witness :
    0 % [instA1, instA2].length < [instA1, instA2].length ∧
    (∃ e, [instA1, instA2][0 % [instA1, instA2].length]? = some e ∧
      (SelectRoundRobin readyState [instA1, instA2]).1 = .returned (some e)) ∧
    (counterOf (SelectRoundRobin readyState [instA1, instA2]).2 "svc-a").val =
      ((0 : Nat) : Int) + 1 :=
  ((SelectRoundRobin_counter readyState [instA1, instA2]).2 "svc-a" rfl).2.2 0 rfl (by decide)

/-- Counterexample to C6 as stated: the call on the empty list returns nil and increments
no counter. -/
theorem SelectRoundRobin_empty_no_increment :
    SelectRoundRobin readyState [] = (.returned none, readyState) ∧
      ¬ ∃ s, (counterOf (SelectRoundRobin readyState []).2 s).val =
        (counterOf readyState s).val + 1 := by
  refine ⟨rfl, ?_⟩
  rintro ⟨s, hs⟩
  have h : (SelectRoundRobin readyState []).2 = readyState := rfl
  rw [h] at hs
  omega

/-- C4. `SetCacheTTL t` with `t ≤ 0` returns an error and leaves the state, the TTL included,
unchanged; with `t > 0` it returns nil, sets the TTL to exactly `t` and changes nothing
else. -/
theorem SetCacheTTL_spec (st : State) (t : Int) :
    (t ≤ 0 → (∃ msg, (SetCacheTTL st t).1 = some msg) ∧ (SetCacheTTL st t).2 = st) ∧
    (0 < t → (SetCacheTTL st t).1 = none ∧ (SetCacheTTL st t).2.cacheTTL = t ∧
      (SetCacheTTL st t).2 = { st with cacheTTL := t }) := by
  refine ⟨?_, ?_⟩
  · intro h
    simp [SetCacheTTL, h]
  · intro h
    have h' : ¬ t ≤ 0 := by omega
    simp [SetCacheTTL, h']

/-- C3, the code at the failing input. The registry client is set, the list names `svc-a`,
the strategy is `round_robin`, the registry returns three instances of `svc-a`, and the
counter of `svc-a` is `math.MaxInt64`. The first pass returns nil and leaves the counter
wrapped around to `math.MinInt64`; the second pass is unwound by the panic of
`SelectRoundRobin`: it returns neither an error nor nil, where the claim promises nil. -/
theorem SelectServiceFromNames_overflow_panics :
    maxedState.ConsulClient ≠ none ∧
    (counterOf maxedState "svc-a").val = maxInt ∧
    (SelectServiceFromNames maxedState ["svc-a"] RoundRobinStrategy false
      (fun _ => worldA3)).1 = .returned none ∧
    (counterOf (runPasses maxedState ["svc-a"] RoundRobinStrategy false (fun _ _ => worldA3) 1)
      "svc-a").val = minInt ∧
    (SelectServiceFromNames
      (runPasses maxedState ["svc-a"] RoundRobinStrategy false (fun _ _ => worldA3) 1)
      ["svc-a"] RoundRobinStrategy false (fun _ => worldA3)).1 =
        .panicked "runtime error: index out of range [-2]" := by
  decide

theorem resolveName_returned_of_ne (st : State) (n : String) (strategy : LoadBalanceStrategy)
    (u : Bool) (w : World) (h : strategy ≠ RoundRobinStrategy) :
    (resolveName st n strategy u w).1 = .returned () := by
  cases hres : GetHealthyServices st n u w with
  | mk res st1 =>
    cases res with
    | error err => rw [resolveName_error st st1 n strategy u w err hres]
    | ok services =>
      by_cases hlen : services.length = 0
      · rw [resolveName_empty st st1 n strategy u w services hres hlen]
      · by_cases hrand : strategy = RandomStrategy
        · obtain ⟨e, -, hsel⟩ := SelectRandom_nonempty services w.draw hlen
          subst hrand
          rw [resolveName_random st st1 n u w services e hres hlen hsel]
        · rw [resolveName_unknown st st1 n strategy u w services hres hrand h]

theorem resolveLoop_returned_of_ne (names : List String) (strategy : LoadBalanceStrategy)
    (u : Bool) (h : strategy ≠ RoundRobinStrategy) :
    ∀ (st : State) (ws : Nat → World), (resolveLoop st names strategy u ws).1 = .returned () := by
  induction names with
  | nil => intro st ws; rfl
  | cons n rest ih =>
    intro st ws
    rw [resolveLoop_cons_returned st n rest strategy u ws
      (resolveName_returned_of_ne st n strategy u (ws 0) h)]
    exact ih _ _

/-- Guards of `SelectServiceFromNames`. It returns an error exactly when the registry
client is unset or the name list is empty, and in that case the whole state (Status Table,
cache, round-robin counters) is unchanged; in every other case it returns nil or is unwound
by a panic of `SelectRoundRobin`, and it returns nil whenever the strategy is not
`round_robin`. -/
theorem SelectServiceFromNames_guards (st : State) (names : List String)
    (strategy : LoadBalanceStrategy) (useCache : Bool) (worlds : Nat → World) :
    ((∃ msg, (SelectServiceFromNames st names strategy useCache worlds).1 =
          .returned (some msg)) ↔ (st.ConsulClient = none ∨ names = [])) ∧
    ((st.ConsulClient = none ∨ names = []) →
        (SelectServiceFromNames st names strategy useCache worlds).2 = st) ∧
    (¬ (st.ConsulClient = none ∨ names = []) →
        ((SelectServiceFromNames st names strategy useCache worlds).1 = .returned none ∨
          ∃ message, (SelectServiceFromNames st names strategy useCache worlds).1 =
            .panicked message) ∧
        (strategy ≠ RoundRobinStrategy →
          (SelectServiceFromNames st names strategy useCache worlds).1 = .returned none)) := by
  have hrest : ¬ (st.ConsulClient = none ∨ names = []) →
      (SelectServiceFromNames st names strategy useCache worlds).1 = .returned none ∨
        ∃ message, (SelectServiceFromNames st names strategy useCache worlds).1 =
          .panicked message := by
    intro hg
    obtain ⟨-, hr, hp⟩ := SelectServiceFromNames_run st names strategy useCache worlds
      (fun e => hg (Or.inl e)) (fun e => hg (Or.inr e))
    rcases outcome_unit_cases (resolveLoop st names strategy useCache worlds).1 with
      h | ⟨m, h⟩
    · exact Or.inl (hr h)
    · exact Or.inr ⟨m, hp m h⟩
  refine ⟨⟨?_, ?_⟩, ?_, fun hg => ⟨hrest hg, ?_⟩⟩
  · rintro ⟨msg, hmsg⟩
    by_contra hg
    rcases hrest hg with h | ⟨m, h⟩
    · rw [h] at hmsg
      cases hmsg
    · rw [h] at hmsg
      cases hmsg
  · intro hg
    obtain ⟨msg, hmsg⟩ := SelectServiceFromNames_guarded st names strategy useCache worlds hg
    exact ⟨msg, by rw [hmsg]⟩
  · intro hg
    obtain ⟨msg, hmsg⟩ := SelectServiceFromNames_guarded st names strategy useCache worlds hg
    rw [hmsg]
  · intro hne
    obtain ⟨-, hr, -⟩ := SelectServiceFromNames_run st names strategy useCache worlds
      (fun e => hg (Or.inl e)) (fun e => hg (Or.inr e))
    exact hr (resolveLoop_returned_of_ne names strategy useCache hne st worlds)

/-- C10. After a call of `SelectServiceFromNames` that returns nil, every name of the list
has an entry in the Status Table, and every key that does not occur in the list has
exactly the entry (or absence of entry) it had before the call. -/
theorem SelectServiceFromNames_frame (st : State) (names : List String)
    (strategy : LoadBalanceStrategy) (useCache : Bool) (worlds : Nat → World)
    (hok : (SelectServiceFromNames st names strategy useCache worlds).1 = .returned none) :
    (∀ n, n ∈ names →
        ∃ r, GetServiceResult (SelectServiceFromNames st names strategy useCache worlds).2 n =
          some r) ∧
    (∀ k, k ∉ names →
        GetServiceResult (SelectServiceFromNames st names strategy useCache worlds).2 k =
          GetServiceResult st k) := by
  obtain ⟨hclient, hnames, hret⟩ :=
    SelectServiceFromNames_returned_nil st names strategy useCache worlds hok
  obtain ⟨hst, -, -⟩ :=
    SelectServiceFromNames_run st names strategy useCache worlds hclient hnames
  rw [hst]
  exact ⟨fun n hn => resolveLoop_get_mem names strategy useCache n hn st worlds hret,
    fun k hk => resolveLoop_get_other names strategy useCache k hk st worlds⟩

/-- Witness of C10: a pass over `svc-a` and `svc-b` from the state after `InitConsul`. -/
theorem SelectServiceFromNames_frame_witness :
    (∀ n, n ∈ ["svc-a", "svc-b"] →
        ∃ r, GetServiceResult
          (SelectServiceFromNames readyState ["svc-a", "svc-b"] RoundRobinStrategy false
            (fun _ => worldA)).2 n = some r) ∧
    (∀ k, k ∉ ["svc-a", "svc-b"] →
        GetServiceResult
          (SelectServiceFromNames readyState ["svc-a", "svc-b"] RoundRobinStrategy false
            (fun _ => worldA)).2 k = GetServiceResult readyState k) :=
  SelectServiceFromNames_frame readyState ["svc-a", "svc-b"] RoundRobinStrategy false
    (fun _ => worldA) (by decide)

/-! ## Counting the outcomes of a pass -/

/-- C2, as amended. For a call of `SelectServiceFromNames` with an initialised registry
client and a non-empty list of `N` pairwise distinct names of which exactly `K` fail, that
returns (no panic unwinds it): the call returns nil; among the results that the Status
Table then holds for the names of the list exactly `K` have `Success=false` and exactly
`N-K` have `Success=true`; and when the table held no result for any of these names
before the call, the call adds exactly `K` entries with `Success=false` and `N-K` entries
with `Success=true` to it. -/
theorem SelectServiceFromNames_counts (st : State) (names : List String)
    (strategy : LoadBalanceStrategy) (useCache : Bool) (worlds : Nat → World)
    (hclient : st.ConsulClient ≠ none) (hnames : names ≠ []) (hdistinct : names.Nodup)
    (hreturns : ∃ v, (SelectServiceFromNames st names strategy useCache worlds).1 =
      .returned v) :
    (SelectServiceFromNames st names strategy useCache worlds).1 = .returned none ∧
    (names.filter (fun n =>
        successOf (SelectServiceFromNames st names strategy useCache worlds).2 n ==
          some false)).length = failures st names strategy useCache worlds ∧
    (names.filter (fun n =>
        successOf (SelectServiceFromNames st names strategy useCache worlds).2 n ==
          some true)).length = names.length - failures st names strategy useCache worlds ∧
    ((∀ n, n ∈ names → GetServiceResult st n = none) →
      countEntries (SelectServiceFromNames st names strategy useCache worlds).2 false =
        countEntries st false + failures st names strategy useCache worlds ∧
      countEntries (SelectServiceFromNames st names strategy useCache worlds).2 true =
        countEntries st true + (names.length - failures st names strategy useCache worlds)) := by
  obtain ⟨hst, hr, hp⟩ :=
    SelectServiceFromNames_run st names strategy useCache worlds hclient hnames
  have hret : (resolveLoop st names strategy useCache worlds).1 = .returned () := by
    rcases outcome_unit_cases (resolveLoop st names strategy useCache worlds).1 with
      h | ⟨m, h⟩
    · exact h
    · obtain ⟨v, hv⟩ := hreturns
      rw [hp m h] at hv
      cases hv
  rw [hst]
  obtain ⟨hF, hT⟩ := resolveLoop_count names strategy useCache st worlds hdistinct hret
  refine ⟨hr hret, hF, by omega, ?_⟩
  intro hfresh
  obtain ⟨hF', hT'⟩ :=
    resolveLoop_countEntries names strategy useCache st worlds hdistinct hret hfresh
  exact ⟨hF', by omega⟩

/-- Witness of C2: a pass over `svc-a` (two instances) and `svc-b` (none). -/
theorem SelectServiceFromNames_counts_witness :
    (SelectServiceFromNames readyState ["svc-a", "svc-b"] RoundRobinStrategy false
        (fun _ => worldA)).1 = .returned none ∧
    (["svc-a", "svc-b"].filter (fun n =>
        successOf (SelectServiceFromNames readyState ["svc-a", "svc-b"] RoundRobinStrategy
          false (fun _ => worldA)).2 n == some false)).length =
      failures readyState ["svc-a", "svc-b"] RoundRobinStrategy false (fun _ => worldA) ∧
    (["svc-a", "svc-b"].filter (fun n =>
        successOf (SelectServiceFromNames readyState ["svc-a", "svc-b"] RoundRobinStrategy
          false (fun _ => worldA)).2 n == some true)).length =
      ["svc-a", "svc-b"].length -
        failures readyState ["svc-a", "svc-b"] RoundRobinStrategy false (fun _ => worldA) ∧
    ((∀ n, n ∈ ["svc-a", "svc-b"] → GetServiceResult readyState n = none) →
      countEntries (SelectServiceFromNames readyState ["svc-a", "svc-b"] RoundRobinStrategy
          false (fun _ => worldA)).2 false =
        countEntries readyState false +
          failures readyState ["svc-a", "svc-b"] RoundRobinStrategy false (fun _ => worldA) ∧
      countEntries (SelectServiceFromNames readyState ["svc-a", "svc-b"] RoundRobinStrategy
          false (fun _ => worldA)).2 true =
        countEntries readyState true + (["svc-a", "svc-b"].length -
          failures readyState ["svc-a", "svc-b"] RoundRobinStrategy false (fun _ => worldA))) :=
  SelectServiceFromNames_counts readyState ["svc-a", "svc-b"] RoundRobinStrategy false
    (fun _ => worldA) (by decide) (by decide) (by decide) ⟨none, by decide⟩

/-- Counterexample to C2 as stated. (1) The list names `svc-a` twice: `N = 2`, `K = 0`, nil
is returned, and the table has one entry with `Success=true`, not two. (2) The table
already holds the failed result of `svc-b` and the list is `svc-a` alone: `N = 1`, `K = 0`,
and the table has one entry with `Success=false`, not none. (3) The list is empty:
`N = K = 0` and an error is returned. (4) The counter of `svc-a` has wrapped around to
`math.MinInt64`: `N = 1`, `K = 0`, the call is unwound by a panic instead of returning nil,
and the table has no entry with `Success=true`. -/
theorem SelectServiceFromNames_counts_fail :
    (failures readyState ["svc-a", "svc-a"] RoundRobinStrategy false (fun _ => worldA) = 0 ∧
      (SelectServiceFromNames readyState ["svc-a", "svc-a"] RoundRobinStrategy false
        (fun _ => worldA)).1 = .returned none ∧
      countEntries (SelectServiceFromNames readyState ["svc-a", "svc-a"] RoundRobinStrategy
        false (fun _ => worldA)).2 true = 1) ∧
    (failures afterFailedB ["svc-a"] RoundRobinStrategy false (fun _ => worldA) = 0 ∧
      (SelectServiceFromNames afterFailedB ["svc-a"] RoundRobinStrategy false
        (fun _ => worldA)).1 = .returned none ∧
      countEntries (SelectServiceFromNames afterFailedB ["svc-a"] RoundRobinStrategy false
        (fun _ => worldA)).2 false = 1) ∧
    (SelectServiceFromNames readyState [] RoundRobinStrategy false (fun _ => worldA)).1 =
      .returned (some "service names slice cannot be empty") ∧
    (failures wrappedState ["svc-a"] RoundRobinStrategy false (fun _ => worldA3) = 0 ∧
      (SelectServiceFromNames wrappedState ["svc-a"] RoundRobinStrategy false
        (fun _ => worldA3)).1 = .panicked "runtime error: index out of range [-2]" ∧
      countEntries (SelectServiceFromNames wrappedState ["svc-a"] RoundRobinStrategy false
        (fun _ => worldA3)).2 true = 0) := by
  decide

/-! ## Cache freshness -/

theorem reachable_client (st : State) (h : Reachable st) :
    st.ConsulClient = none → st.cache = GoMap.empty := by
  induction h with
  | start => intro _; rfl
  | initConsul st client _ _ => intro hc; simp at hc
  | setCacheTTL st ttl _ ih =>
    have hframe : (SetCacheTTL st ttl).2.ConsulClient = st.ConsulClient ∧
        (SetCacheTTL st ttl).2.cache = st.cache := by
      unfold SetCacheTTL
      split <;> simp
    intro hc
    rw [hframe.1] at hc
    rw [hframe.2]
    exact ih hc
  | getHealthyServices st n u w _ ih =>
    intro hc
    rw [(GetHealthyServices_frame st n u w).2.1] at hc
    have hst : (GetHealthyServices st n u w).2 = st := by simp [GetHealthyServices, hc]
    rw [hst]
    exact ih hc
  | selectRoundRobin st services _ ih =>
    intro hc
    obtain ⟨-, h2, h3, -⟩ := SelectRoundRobin_frame st services
    rw [h2] at hc
    rw [h3]
    exact ih hc
  | selectServiceFromNames st names strategy u worlds _ ih =>
    intro hc
    have hnone : st.ConsulClient = none := by
      by_contra hcl
      by_cases hnames : names = []
      · obtain ⟨msg, hmsg⟩ :=
          SelectServiceFromNames_guarded st names strategy u worlds (Or.inr hnames)
        rw [hmsg] at hc
        exact hcl hc
      · obtain ⟨hst, -, -⟩ := SelectServiceFromNames_run st names strategy u worlds hcl hnames
        rw [hst, resolveLoop_client] at hc
        exact hcl hc
    obtain ⟨msg, hmsg⟩ := SelectServiceFromNames_guarded st names strategy u worlds (Or.inl hnone)
    rw [hmsg]
    exact ih hnone

theorem getCache_updateCache (st : State) (name : String) (services : List ServiceEntry)
    (T : Int) :
    getCache (updateCache st name services T) name =
      some { services := services, expireAt := T + st.cacheTTL } := by
  unfold updateCache getCache
  split <;> simp [GoMap.get?_set_same]

/-- C5. With the clock an explicit input: when `updateCache` stores `services` for `name`
at clock value `T` while the TTL is `t` (any value, so every `t > 0`), the entry it leaves
holds `services` and expires at exactly `T + t`. In every later state of the package in
which the entry of `name` is still that one (no update of `name` in between),
`GetHealthyServices name true` performed at a clock value strictly before `T + t` returns
exactly `services` with no error and leaves the whole state unchanged: the cache is not
written and the registry is not queried (`registryQueries` is part of the state). -/
theorem cache_fresh_hit (st : State) (name : String) (services : List ServiceEntry) (T : Int)
    (st2 : State) (w : World) (hreach : Reachable st2)
    (hsame : getCache st2 name = getCache (updateCache st name services T) name)
    (hbefore : w.nowCheck < T + st.cacheTTL) :
    getCache (updateCache st name services T) name =
        some { services := services, expireAt := T + st.cacheTTL } ∧
      GetHealthyServices st2 name true w = (.ok services, st2) := by
  refine ⟨getCache_updateCache st name services T, ?_⟩
  rw [getCache_updateCache] at hsame
  have hclient : st2.ConsulClient ≠ none := by
    intro hc
    have hempty := reachable_client st2 hreach hc
    simp [getCache, hempty, GoMap.get?, GoMap.empty, GoMap.find] at hsame
  unfold GetHealthyServices
  cases hc : st2.ConsulClient with
  | none => exact absurd hc hclient
  | some c =>
    have hfresh : ¬ (T + st.cacheTTL < w.nowCheck) := by omega
    simp [hsame, hfresh]

/-- Witness of C5: `svc-a` fetched and cached at clock value 5 with the default TTL, then
read through the cache at clock value 5. -/
theorem cache_fresh_hit_witness :
    getCache (updateCache readyState "svc-a" [instA1, instA2] 5) "svc-a" =
        some { services := [instA1, instA2], expireAt := 5 + readyState.cacheTTL } ∧
      GetHealthyServices afterFetchA "svc-a" true worldA = (.ok [instA1, instA2], afterFetchA) :=
  cache_fresh_hit readyState "svc-a" [instA1, instA2] 5 afterFetchA worldA
    (Reachable.getHealthyServices readyState "svc-a" false worldA
      (Reachable.initConsul State.init ⟨"localhost:8500"⟩ Reachable.start))
    (by decide) (by decide)

/-! ## Repeated round-robin passes -/

theorem GetHealthyServices_miss (st : State) (c : Client) (n : String) (u : Bool) (w : World)
    (hc : st.ConsulClient = some c)
    (hmiss : u = true → ∀ item, getCache st n = some item → item.expireAt < w.nowCheck) :
    GetHealthyServices st n u w = queryRegistry st n w := by
  unfold GetHealthyServices queryRegistry
  rw [hc]
  simp only []
  cases hu : u with
  | false => simp
  | true =>
    cases hg : getCache st n with
    | none => simp
    | some item =>
      have hexp := hmiss hu item hg
      simp [hexp]

theorem GetHealthyServices_hit (st : State) (c : Client) (n : String) (w : World)
    (item : serviceCache) (hc : st.ConsulClient = some c) (hg : getCache st n = some item)
    (hfresh : ¬ item.expireAt < w.nowCheck) :
    GetHealthyServices st n true w = (.ok item.services, st) := by
  unfold GetHealthyServices
  rw [hc]
  simp [hg, hfresh]

theorem getCache_updateCache_other (st : State) (n k : String) (services : List ServiceEntry)
    (T : Int) (h : k ≠ n) : getCache (updateCache st n services T) k = getCache st k := by
  unfold updateCache getCache
  split <;> simp [GoMap.get?_set_other _ _ _ _ h]

theorem queryRegistry_error (st : State) (n : String) (w : World) (err : String)
    (hreg : w.health n = .error err) :
    queryRegistry st n w =
      (.error ("query healthy services failed: " ++ err),
        { st with registryQueries := n :: st.registryQueries }) := by
  simp [queryRegistry, hreg]

theorem queryRegistry_empty (st : State) (n : String) (w : World) (services : List ServiceEntry)
    (hreg : w.health n = .ok services) (hlen : services.length = 0) :
    queryRegistry st n w =
      (.error ("no healthy service found for: " ++ n),
        { st with registryQueries := n :: st.registryQueries }) := by
  simp [queryRegistry, hreg, hlen]

theorem queryRegistry_cached (st : State) (n : String) (w : World)
    (services : List ServiceEntry)
    (hreg : w.health n = .ok services) (hlen : services.length ≠ 0) :
    queryRegistry st n w =
      (.ok services,
        updateCache { st with registryQueries := n :: st.registryQueries } n services
          w.nowUpdate) := by
  simp [queryRegistry, hreg, hlen]

theorem updateCache_frame (st : State) (n : String) (services : List ServiceEntry) (T : Int) :
    (updateCache st n services T).roundRobinIndexes = st.roundRobinIndexes ∧
      (updateCache st n services T).ConsulClient = st.ConsulClient := by
  unfold updateCache
  split <;> exact ⟨rfl, rfl⟩

theorem queryRegistry_frame (st : State) (n : String) (w : World) :
    (queryRegistry st n w).2.roundRobinIndexes = st.roundRobinIndexes ∧
      (queryRegistry st n w).2.ConsulClient = st.ConsulClient ∧
      ∀ k, k ≠ n → getCache (queryRegistry st n w).2 k = getCache st k := by
  cases hreg : w.health n with
  | error err =>
    rw [queryRegistry_error st n w err hreg]
    exact ⟨rfl, rfl, fun _ _ => rfl⟩
  | ok services =>
    by_cases hlen : services.length = 0
    · rw [queryRegistry_empty st n w services hreg hlen]
      exact ⟨rfl, rfl, fun _ _ => rfl⟩
    · rw [queryRegistry_cached st n w services hreg hlen]
      refine ⟨(updateCache_frame _ _ _ _).1, (updateCache_frame _ _ _ _).2, ?_⟩
      intro k hk
      rw [getCache_updateCache_other _ _ _ _ _ hk]
      rfl

theorem queryRegistry_ok (st : State) (n : String) (w : World) (l : List ServiceEntry)
    (h : (queryRegistry st n w).1 = .ok l) :
    w.health n = .ok l ∧ l.length ≠ 0 ∧
      getCache (queryRegistry st n w).2 n =
        some { services := l, expireAt := w.nowUpdate + st.cacheTTL } := by
  cases hreg : w.health n with
  | error err =>
    rw [queryRegistry_error st n w err hreg] at h
    cases h
  | ok services =>
    by_cases hlen : services.length = 0
    · rw [queryRegistry_empty st n w services hreg hlen] at h
      cases h
    · rw [queryRegistry_cached st n w services hreg hlen] at h ⊢
      have hl : services = l := by
        simp only [] at h
        exact Except.ok.inj h
      subst hl
      exact ⟨rfl, hlen, getCache_updateCache _ _ _ _⟩

theorem queryRegistry_not_ok (st : State) (n : String) (w : World)
    (h : ∀ l, (queryRegistry st n w).1 ≠ .ok l) :
    ∀ k, getCache (queryRegistry st n w).2 k = getCache st k := by
  cases hreg : w.health n with
  | error err =>
    rw [queryRegistry_error st n w err hreg]
    intro k
    rfl
  | ok services =>
    by_cases hlen : services.length = 0
    · rw [queryRegistry_empty st n w services hreg hlen]
      intro k
      rfl
    · rw [queryRegistry_cached st n w services hreg hlen] at h
      exact absurd rfl (h services)

/-- What the fetch of one iteration gives during the repeated passes. -/
theorem fetch_steady (names : List String) (s z : String) (instances : List ServiceEntry)
    (expired : serviceCache → Prop) (hinst : instances ≠ [])
    (st : State) (c : Client) (y : String) (u : Bool) (w : World)
    (hc : st.ConsulClient = some c) (hy : y ∈ names)
    (hreg : SteadyRegistry names s z instances w)
    (hcache : u = true → SteadyCache names s z instances expired st)
    (hexp : ∀ item, expired item → item.expireAt < w.nowCheck) :
    (GetHealthyServices st y u w).2.roundRobinIndexes = st.roundRobinIndexes ∧
    (u = true → SteadyCache names s z instances expired (GetHealthyServices st y u w).2) ∧
    (y = s → (GetHealthyServices st y u w).1 = .ok instances) ∧
    (y = z → ∀ l, (GetHealthyServices st y u w).1 ≠ .ok l) ∧
    (y ≠ s → ∀ l first, (GetHealthyServices st y u w).1 = .ok l → l.head? = some first →
      first.Service.Service ≠ s) := by
  obtain ⟨hregS, hregZ, hother⟩ := hreg
  have hsz : s ≠ z := by
    intro e
    rw [e, hregZ] at hregS
    exact hinst (by simpa using hregS.symm)
  by_cases hhit : u = true ∧ ∃ item, getCache st y = some item ∧ ¬ item.expireAt < w.nowCheck
  · obtain ⟨hu, item, hg, hfresh⟩ := hhit
    subst hu
    have hnotexp : ¬ expired item := fun h => hfresh (hexp item h)
    obtain ⟨hcz, hcs, hcy⟩ := hcache rfl
    rw [GetHealthyServices_hit st c y w item hc hg hfresh]
    refine ⟨rfl, fun _ => ⟨hcz, hcs, hcy⟩, ?_, ?_, ?_⟩
    · intro hys
      subst hys
      rcases hcs item hg with h | h
      · rw [h]
      · exact absurd h hnotexp
    · intro hyz
      subst hyz
      exact absurd (hcz item hg) hnotexp
    · intro hys l first hl hfirst
      have hl' : item.services = l := by simpa using hl
      rcases hcy y item first hy hys hg (by rw [hl']; exact hfirst) with h | h
      · exact h
      · exact absurd h hnotexp
  · have hmiss : u = true → ∀ item, getCache st y = some item → item.expireAt < w.nowCheck := by
      intro hu item hg
      by_contra hfresh
      exact hhit ⟨hu, item, hg, hfresh⟩
    rw [GetHealthyServices_miss st c y u w hc hmiss]
    obtain ⟨hq1, -, hq3⟩ := queryRegistry_frame st y w
    have hfacts : ∀ l, (queryRegistry st y w).1 = .ok l →
        (y = s → l = instances) ∧ y ≠ z ∧
          (y ≠ s → ∀ first, l.head? = some first → first.Service.Service ≠ s) := by
      intro l hl
      obtain ⟨hw, hlen, -⟩ := queryRegistry_ok st y w l hl
      refine ⟨?_, ?_, ?_⟩
      · intro hys
        rw [hys, hregS] at hw
        simpa using hw.symm
      · intro hyz
        rw [hyz, hregZ] at hw
        have : l = [] := by simpa using hw.symm
        exact hlen (by simp [this])
      · intro hys first hfirst
        exact hother y l first hy hys hw hfirst
    refine ⟨hq1, ?_, ?_, ?_, ?_⟩
    · intro hu
      obtain ⟨hcz, hcs, hcy⟩ := hcache hu
      by_cases hok : ∃ l, (queryRegistry st y w).1 = .ok l
      · obtain ⟨l, hl⟩ := hok
        obtain ⟨hfs, hfz, hfy⟩ := hfacts l hl
        obtain ⟨-, -, hnew⟩ := queryRegistry_ok st y w l hl
        refine ⟨?_, ?_, ?_⟩
        · intro item hg
          rw [hq3 z (fun e => hfz e.symm)] at hg
          exact hcz item hg
        · intro item hg
          by_cases hys : y = s
          · subst hys
            rw [hnew] at hg
            have hitem : item.services = l := by
              have := Option.some.inj hg
              rw [← this]
            exact Or.inl (by rw [hitem, hfs rfl])
          · rw [hq3 s (fun e => hys e.symm)] at hg
            exact hcs item hg
        · intro y' item first hy' hy's hg hfirst
          by_cases hyy : y' = y
          · subst hyy
            rw [hnew] at hg
            have hitem : item.services = l := by
              have := Option.some.inj hg
              rw [← this]
            exact Or.inl (hfy hy's first (by rw [← hitem]; exact hfirst))
          · rw [hq3 y' hyy] at hg
            exact hcy y' item first hy' hy's hg hfirst
      · have hsame := queryRegistry_not_ok st y w (fun l hl => hok ⟨l, hl⟩)
        refine ⟨?_, ?_, ?_⟩
        · intro item hg
          rw [hsame] at hg
          exact hcz item hg
        · intro item hg
          rw [hsame] at hg
          exact hcs item hg
        · intro y' item first hy' hy's hg hfirst
          rw [hsame] at hg
          exact hcy y' item first hy' hy's hg hfirst
    · intro hys
      unfold queryRegistry
      rw [hys, hregS]
      have hlen : instances.length ≠ 0 := by
        cases instances with
        | nil => exact absurd rfl hinst
        | cons a b => simp
      simp [hlen]
    · intro hyz l hl
      exact (hfacts l hl).2.1 hyz
    · intro hys l first hl hfirst
      exact (hfacts l hl).2.2 hys first hfirst

theorem counterOf_storeResult (st : State) (n : String) (r : ServiceResult) (k : String) :
    counterOf (storeResult st n r) k = counterOf st k := rfl

theorem getCache_storeResult (st : State) (n : String) (r : ServiceResult) (k : String) :
    getCache (storeResult st n r) k = getCache st k := rfl

theorem GetServiceResult_storeResult (st : State) (n : String) (r : ServiceResult) :
    GetServiceResult (storeResult st n r) n = some r := by
  simp [GetServiceResult, storeResult, GoMap.get?_set_same]

theorem SteadyCache_congr (names : List String) (s z : String) (instances : List ServiceEntry)
    (expired : serviceCache → Prop) (st st1 : State)
    (h : ∀ k, getCache st1 k = getCache st k)
    (hst : SteadyCache names s z instances expired st) :
    SteadyCache names s z instances expired st1 := by
  obtain ⟨h1, h2, h3⟩ := hst
  refine ⟨?_, ?_, ?_⟩
  · intro item hg
    rw [h] at hg
    exact h1 item hg
  · intro item hg
    rw [h] at hg
    exact h2 item hg
  · intro y item first hy hys hg hfirst
    rw [h] at hg
    exact h3 y item first hy hys hg hfirst

/-- One iteration of the loop during the repeated passes, while the counter that the
iteration advances is a natural number below `math.MaxInt64`. -/
theorem resolveName_steady (names : List String) (s z : String) (instances : List ServiceEntry)
    (expired : serviceCache → Prop) (hinst : instances ≠ [])
    (hcarry : ∀ e, e ∈ instances → e.Service.Service = s)
    (st : State) (c : Client) (y : String) (u : Bool) (w : World)
    (hc : st.ConsulClient = some c) (hy : y ∈ names)
    (hreg : SteadyRegistry names s z instances w)
    (hcache : u = true → SteadyCache names s z instances expired st)
    (hexp : ∀ item, expired item → item.expireAt < w.nowCheck)
    (htouch : ∀ first rest, (GetHealthyServices st y u w).1 = .ok (first :: rest) →
      0 ≤ (counterOf st first.Service.Service).val ∧
        (counterOf st first.Service.Service).val < maxInt) :
    (resolveName st y RoundRobinStrategy u w).1 = .returned () ∧
    (u = true →
      SteadyCache names s z instances expired (resolveName st y RoundRobinStrategy u w).2) ∧
    (∀ t, (counterOf st t).val ≤ (counterOf (resolveName st y RoundRobinStrategy u w).2 t).val ∧
      (counterOf (resolveName st y RoundRobinStrategy u w).2 t).val ≤
        (counterOf st t).val + 1) ∧
    (y = s →
      (counterOf (resolveName st y RoundRobinStrategy u w).2 s).val =
          (counterOf st s).val + 1 ∧
        ∃ e, instances[((counterOf st s).val % (instances.length : Int)).toNat]? = some e ∧
          GetServiceResult (resolveName st y RoundRobinStrategy u w).2 s =
            some (successResult s e)) ∧
    (y ≠ s → counterOf (resolveName st y RoundRobinStrategy u w).2 s = counterOf st s) ∧
    (y = z →
      GetServiceResult (resolveName st y RoundRobinStrategy u w).2 z =
        some (failedResult z)) := by
  obtain ⟨hF1, hF2, hF3, hF4, hF5⟩ :=
    fetch_steady names s z instances expired hinst st c y u w hc hy hreg hcache hexp
  have hinstlen : instances.length ≠ 0 := by
    cases instances with
    | nil => exact absurd rfl hinst
    | cons a b => simp
  cases hres : GetHealthyServices st y u w with
  | mk res st1 =>
    rw [hres] at hF1 hF2 hF3 hF4 hF5 htouch
    simp only [] at hF1 hF2 hF3 hF4 hF5
    have hcnt1 : ∀ t, counterOf st1 t = counterOf st t := counterOf_congr st st1 hF1
    have hfailed : resolveName st y RoundRobinStrategy u w =
        (.returned (), storeResult st1 y (failedResult y)) → y ≠ s →
        (resolveName st y RoundRobinStrategy u w).1 = .returned () ∧
        (u = true →
          SteadyCache names s z instances expired
            (resolveName st y RoundRobinStrategy u w).2) ∧
        (∀ t, (counterOf st t).val ≤
            (counterOf (resolveName st y RoundRobinStrategy u w).2 t).val ∧
          (counterOf (resolveName st y RoundRobinStrategy u w).2 t).val ≤
            (counterOf st t).val + 1) ∧
        (y = s →
          (counterOf (resolveName st y RoundRobinStrategy u w).2 s).val =
              (counterOf st s).val + 1 ∧
            ∃ e, instances[((counterOf st s).val % (instances.length : Int)).toNat]? =
                some e ∧
              GetServiceResult (resolveName st y RoundRobinStrategy u w).2 s =
                some (successResult s e)) ∧
        (y ≠ s → counterOf (resolveName st y RoundRobinStrategy u w).2 s = counterOf st s) ∧
        (y = z →
          GetServiceResult (resolveName st y RoundRobinStrategy u w).2 z =
            some (failedResult z)) := by
      intro hR hys
      rw [hR]
      refine ⟨rfl, ?_, ?_, fun h => absurd h hys, ?_, ?_⟩
      · intro hu
        exact SteadyCache_congr names s z instances expired st1 _ (fun _ => rfl) (hF2 hu)
      · intro t
        simp only [counterOf_storeResult, hcnt1]
        omega
      · intro _
        simp only [counterOf_storeResult, hcnt1]
      · intro hyz
        subst hyz
        exact GetServiceResult_storeResult _ _ _
    cases res with
    | error err =>
      have hys : y ≠ s := by
        intro hys
        have := hF3 hys
        cases this
      exact hfailed (resolveName_error st st1 y _ u w err hres) hys
    | ok services =>
      cases services with
      | nil =>
        have hys : y ≠ s := by
          intro hys
          have h := hF3 hys
          have h' : ([] : List ServiceEntry) = instances := Except.ok.inj h
          exact hinst h'.symm
        exact hfailed (resolveName_empty st st1 y _ u w [] hres rfl) hys
      | cons first rest =>
        have hyz : y ≠ z := fun hyz => hF4 hyz (first :: rest) rfl
        have h0 : 0 ≤ (counterOf st1 first.Service.Service).val := by
          rw [hcnt1]
          exact (htouch first rest rfl).1
        obtain ⟨e, he, -, hsel⟩ := SelectRoundRobin_returned st1 first rest h0
        have hR := resolveName_roundRobin st st1 y u w (first :: rest) e hres (by simp) hsel
        have hstate := SelectRoundRobin_state st1 first rest
        have hval : (counterOf st1 first.Service.Service + GoInt.one).val =
            (counterOf st first.Service.Service).val + 1 := by
          rw [GoInt.add_one_val _ (by rw [hcnt1]; exact (htouch first rest rfl).2), hcnt1]
        rw [hR]
        refine ⟨rfl, ?_, ?_, ?_, ?_, fun h => absurd h hyz⟩
        · intro hu
          refine SteadyCache_congr names s z instances expired st1 _ ?_ (hF2 hu)
          intro k
          dsimp only
          rw [getCache_storeResult, hstate]
          rfl
        · intro t
          dsimp only
          rw [counterOf_storeResult, hstate]
          by_cases ht : t = first.Service.Service
          · subst ht
            rw [counterOf_set_same, hval]
            omega
          · rw [counterOf_set_other _ _ _ _ ht, hcnt1]
            omega
        · intro hys
          have hlist : first :: rest = instances := Except.ok.inj (hF3 hys)
          have hname : first.Service.Service = s := hcarry first (by rw [← hlist]; simp)
          rw [hname] at hstate hval he
          dsimp only
          rw [counterOf_storeResult, hstate, counterOf_set_same, hval]
          refine ⟨rfl, e, ?_, ?_⟩
          · rw [← hlist, ← hcnt1]
            exact he
          · rw [hys]
            exact GetServiceResult_storeResult _ _ _
        · intro hys
          have hne : s ≠ first.Service.Service :=
            fun e' => hF5 hys (first :: rest) first rfl rfl e'.symm
          dsimp only
          rw [counterOf_storeResult, hstate, counterOf_set_other _ _ _ _ hne, hcnt1]


/-- Where a fetched list comes from: the registry's answer, or an entry of the cache. -/
theorem GetHealthyServices_source (st : State) (c : Client) (y : String) (u : Bool) (w : World)
    (l : List ServiceEntry) (hc : st.ConsulClient = some c)
    (h : (GetHealthyServices st y u w).1 = .ok l) :
    w.health y = .ok l ∨ (u = true ∧ ∃ item, getCache st y = some item ∧ item.services = l) := by
  by_cases hhit : u = true ∧ ∃ item, getCache st y = some item ∧ ¬ item.expireAt < w.nowCheck
  · obtain ⟨hu, item, hg, hfresh⟩ := hhit
    subst hu
    rw [GetHealthyServices_hit st c y w item hc hg hfresh] at h
    exact Or.inr ⟨rfl, item, hg, Except.ok.inj h⟩
  · have hmiss : u = true → ∀ item, getCache st y = some item → item.expireAt < w.nowCheck := by
      intro hu item hg
      by_contra hfresh
      exact hhit ⟨hu, item, hg, hfresh⟩
    rw [GetHealthyServices_miss st c y u w hc hmiss] at h
    exact Or.inl (queryRegistry_ok st y w l h).1

/-- Where a cached list comes from after a fetch: the cache before the fetch, or the
registry's answer for the fetched name. -/
theorem GetHealthyServices_cache (st : State) (c : Client) (y : String) (u : Bool) (w : World)
    (hc : st.ConsulClient = some c) (k : String) (item : serviceCache)
    (h : getCache (GetHealthyServices st y u w).2 k = some item) :
    getCache st k = some item ∨ (k = y ∧ w.health y = .ok item.services) := by
  by_cases hhit : u = true ∧ ∃ item, getCache st y = some item ∧ ¬ item.expireAt < w.nowCheck
  · obtain ⟨hu, item1, hg, hfresh⟩ := hhit
    subst hu
    rw [GetHealthyServices_hit st c y w item1 hc hg hfresh] at h
    exact Or.inl h
  · have hmiss : u = true → ∀ item, getCache st y = some item → item.expireAt < w.nowCheck := by
      intro hu item hg
      by_contra hfresh
      exact hhit ⟨hu, item, hg, hfresh⟩
    rw [GetHealthyServices_miss st c y u w hc hmiss] at h
    by_cases hok : ∃ l, (queryRegistry st y w).1 = .ok l
    · obtain ⟨l, hl⟩ := hok
      obtain ⟨hw, -, hnew⟩ := queryRegistry_ok st y w l hl
      by_cases hky : k = y
      · subst hky
        rw [hnew] at h
        have hitem : item.services = l := by
          have := Option.some.inj h
          rw [← this]
        exact Or.inr ⟨rfl, by rw [hitem]; exact hw⟩
      · rw [(queryRegistry_frame st y w).2.2 k hky] at h
        exact Or.inl h
    · rw [queryRegistry_not_ok st y w (fun l hl => hok ⟨l, hl⟩)] at h
      exact Or.inl h

/-- The loop body writes the cache only through its fetch. -/
theorem resolveName_cache (st : State) (n : String) (strategy : LoadBalanceStrategy)
    (u : Bool) (w : World) (k : String) :
    getCache (resolveName st n strategy u w).2 k = getCache (GetHealthyServices st n u w).2 k := by
  cases hres : GetHealthyServices st n u w with
  | mk res st1 =>
    cases res with
    | error err =>
      rw [resolveName_error st st1 n strategy u w err hres]
      rfl
    | ok services =>
      by_cases hlen : services.length = 0
      · rw [resolveName_empty st st1 n strategy u w services hres hlen]
        rfl
      · by_cases hrand : strategy = RandomStrategy
        · obtain ⟨e, -, hsel⟩ := SelectRandom_nonempty services w.draw hlen
          subst hrand
          rw [resolveName_random st st1 n u w services e hres hlen hsel]
          rfl
        · by_cases hrr : strategy = RoundRobinStrategy
          · obtain ⟨-, -, hR3, -⟩ := SelectRoundRobin_frame st1 services
            subst hrr
            rcases SelectRoundRobin_outcomes st1 services hlen with
              ⟨e, -, hsel⟩ | ⟨message, hsel⟩
            · rw [resolveName_roundRobin st st1 n u w services e hres hlen hsel]
              show (SelectRoundRobin st1 services).2.cache.get? k = st1.cache.get? k
              rw [hR3]
            · rw [resolveName_roundRobin_panicked st st1 n u w services message hres hlen hsel]
              show (SelectRoundRobin st1 services).2.cache.get? k = st1.cache.get? k
              rw [hR3]
          · rw [resolveName_unknown st st1 n strategy u w services hres hrand hrr]
            rfl
/-- One pass of the loop during the repeated passes, while no counter that the pass
advances can reach `math.MaxInt64` within the pass. `Q y l` says that the list `l` may be
fetched for the name `y`. -/
theorem resolveLoop_steady (names : List String) (s z : String)
    (instances : List ServiceEntry) (expired : serviceCache → Prop) (hinst : instances ≠ [])
    (hcarry : ∀ e, e ∈ instances → e.Service.Service = s) (c : Client) (u : Bool)
    (Q : String → List ServiceEntry → Prop) (l : List String) :
    ∀ (st : State) (ws : Nat → World), (∀ y, y ∈ l → y ∈ names) → l.Nodup →
      st.ConsulClient = some c →
      (∀ i, SteadyRegistry names s z instances (ws i)) →
      (u = true → SteadyCache names s z instances expired st) →
      (∀ item, expired item → ∀ i, item.expireAt < (ws i).nowCheck) →
      (∀ i y l1, y ∈ names → (ws i).health y = .ok l1 → Q y l1) →
      (u = true → ∀ y item, y ∈ names → getCache st y = some item → Q y item.services) →
      (0 ≤ (counterOf st s).val ∧ (s ∈ l → (counterOf st s).val < maxInt)) →
      (∀ y first rest, y ∈ names → Q y (first :: rest) → first.Service.Service ≠ s →
        0 ≤ (counterOf st first.Service.Service).val ∧
          (counterOf st first.Service.Service).val + (l.length : Int) ≤ maxInt) →
      (resolveLoop st l RoundRobinStrategy u ws).1 = .returned () ∧
      (resolveLoop st l RoundRobinStrategy u ws).2.ConsulClient = some c ∧
      (u = true →
        SteadyCache names s z instances expired (resolveLoop st l RoundRobinStrategy u ws).2) ∧
      (u = true → ∀ y item, y ∈ names →
        getCache (resolveLoop st l RoundRobinStrategy u ws).2 y = some item →
        Q y item.services) ∧
      (∀ t, (counterOf st t).val ≤ (counterOf (resolveLoop st l RoundRobinStrategy u ws).2 t).val ∧
        (counterOf (resolveLoop st l RoundRobinStrategy u ws).2 t).val ≤
          (counterOf st t).val + (l.length : Int)) ∧
      (s ∉ l → counterOf (resolveLoop st l RoundRobinStrategy u ws).2 s = counterOf st s) ∧
      (s ∈ l →
        (counterOf (resolveLoop st l RoundRobinStrategy u ws).2 s).val =
            (counterOf st s).val + 1 ∧
          ∃ e, instances[((counterOf st s).val % (instances.length : Int)).toNat]? = some e ∧
            GetServiceResult (resolveLoop st l RoundRobinStrategy u ws).2 s =
              some (successResult s e)) ∧
      (z ∈ l →
        GetServiceResult (resolveLoop st l RoundRobinStrategy u ws).2 z =
          some (failedResult z)) := by
  induction l with
  | nil =>
    intro st ws _ _ hc _ hcache _ _ hQc _ _
    refine ⟨rfl, hc, hcache, hQc, ?_, fun _ => rfl, ?_, ?_⟩
    · intro t
      have h : (resolveLoop st [] RoundRobinStrategy u ws).2 = st := rfl
      rw [h]
      simp
    · intro h
      simp at h
    · intro h
      simp at h
  | cons y rest ih =>
    intro st ws hsub hnodup hc hreg hcache hexp hQr hQc hcntS hcntT
    have hy : y ∉ rest := (List.nodup_cons.mp hnodup).1
    have hyn : y ∈ names := hsub y (List.mem_cons_self _ _)
    have hlen : ((y :: rest).length : Int) = (rest.length : Int) + 1 := by
      simp
    have hr0 : (0 : Int) ≤ rest.length := Int.natCast_nonneg _
    obtain ⟨-, -, -, -, hF5⟩ :=
      fetch_steady names s z instances expired hinst st c y u (ws 0) hc hyn (hreg 0) hcache
        (fun item h => hexp item h 0)
    have htouch : ∀ first rest1, (GetHealthyServices st y u (ws 0)).1 = .ok (first :: rest1) →
        0 ≤ (counterOf st first.Service.Service).val ∧
          (counterOf st first.Service.Service).val < maxInt := by
      intro first rest1 hfetch
      have hQ : Q y (first :: rest1) := by
        rcases GetHealthyServices_source st c y u (ws 0) _ hc hfetch with h | ⟨hu, item, hg, hl⟩
        · exact hQr 0 y _ hyn h
        · rw [← hl]
          exact hQc hu y item hyn hg
      by_cases hname : first.Service.Service = s
      · have hys : y = s := by
          by_contra hys
          exact hF5 hys (first :: rest1) first hfetch rfl hname
        rw [hname]
        exact ⟨hcntS.1, hcntS.2 (by rw [← hys]; exact List.mem_cons_self _ _)⟩
      · have h := hcntT y first rest1 hyn hQ hname
        rw [hlen] at h
        omega
    obtain ⟨hR1, hR2, hR3, hR4, hR5, hR6⟩ :=
      resolveName_steady names s z instances expired hinst hcarry st c y u (ws 0) hc
        hyn (hreg 0) hcache (fun item h => hexp item h 0) htouch
    have hc1 : (resolveName st y RoundRobinStrategy u (ws 0)).2.ConsulClient = some c := by
      rw [(resolveName_cases st y RoundRobinStrategy u (ws 0)).1, hc]
    have hQc1 : u = true → ∀ y1 item, y1 ∈ names →
        getCache (resolveName st y RoundRobinStrategy u (ws 0)).2 y1 = some item →
        Q y1 item.services := by
      intro hu y1 item hy1 hg
      rw [resolveName_cache] at hg
      rcases GetHealthyServices_cache st c y u (ws 0) hc y1 item hg with h | ⟨h1, h2⟩
      · exact hQc hu y1 item hy1 h
      · rw [h1]
        exact hQr 0 y _ hyn h2
    have hcntS1 : 0 ≤ (counterOf (resolveName st y RoundRobinStrategy u (ws 0)).2 s).val ∧
        (s ∈ rest →
          (counterOf (resolveName st y RoundRobinStrategy u (ws 0)).2 s).val < maxInt) := by
      refine ⟨?_, ?_⟩
      · have h1 := (hR3 s).1
        have h2 := hcntS.1
        omega
      · intro hs
        have hys : y ≠ s := by
          intro e
          rw [e] at hy
          exact hy hs
        rw [hR5 hys]
        exact hcntS.2 (List.mem_cons_of_mem _ hs)
    have hcntT1 : ∀ y1 first rest1, y1 ∈ names → Q y1 (first :: rest1) →
        first.Service.Service ≠ s →
        0 ≤ (counterOf (resolveName st y RoundRobinStrategy u (ws 0)).2
            first.Service.Service).val ∧
          (counterOf (resolveName st y RoundRobinStrategy u (ws 0)).2
            first.Service.Service).val + (rest.length : Int) ≤ maxInt := by
      intro y1 first rest1 hy1 hQ hname
      have h1 := hcntT y1 first rest1 hy1 hQ hname
      have h2 := hR3 first.Service.Service
      rw [hlen] at h1
      omega
    obtain ⟨ih1, ih2, ih3, ihQ, ih4, ih5, ih6, ih7⟩ :=
      ih (resolveName st y RoundRobinStrategy u (ws 0)).2 (fun i => ws (i + 1))
        (fun y1 hy1 => hsub y1 (List.mem_cons_of_mem _ hy1)) (List.nodup_cons.mp hnodup).2 hc1
        (fun i => hreg (i + 1)) hR2 (fun item h i => hexp item h (i + 1))
        (fun i => hQr (i + 1)) hQc1 hcntS1 hcntT1
    rw [resolveLoop_cons_returned st y rest RoundRobinStrategy u ws hR1]
    refine ⟨ih1, ih2, ih3, ihQ, ?_, ?_, ?_, ?_⟩
    · intro t
      have h2 := hR3 t
      have h3 := ih4 t
      rw [hlen]
      omega
    · intro hs
      have hys : y ≠ s := fun e => hs (by rw [e]; exact List.mem_cons_self _ _)
      have hsrest : s ∉ rest := fun h => hs (List.mem_cons_of_mem _ h)
      rw [ih5 hsrest, hR5 hys]
    · intro hs
      by_cases hys : y = s
      · obtain ⟨hcount, e, he, hget⟩ := hR4 hys
        have hsrest : s ∉ rest := by
          rw [← hys]
          exact hy
        refine ⟨by rw [ih5 hsrest, hcount], e, he, ?_⟩
        rw [resolveLoop_get_other rest _ _ s hsrest, hget]
      · have hsrest : s ∈ rest := by
          rcases List.mem_cons.mp hs with h | h
          · exact absurd h.symm hys
          · exact h
        obtain ⟨hcount, e, he, hget⟩ := ih6 hsrest
        rw [hR5 hys] at hcount he
        exact ⟨hcount, e, he, hget⟩
    · intro hz
      by_cases hyz : y = z
      · have hzrest : z ∉ rest := by
          rw [← hyz]
          exact hy
        rw [resolveLoop_get_other rest _ _ z hzrest]
        exact hR6 hyz
      · have hzrest : z ∈ rest := by
          rcases List.mem_cons.mp hz with h | h
          · exact absurd h.symm hyz
          · exact h
        exact ih7 hzrest

/-- The state after each of the first passes, while no counter that the passes advance can
reach `math.MaxInt64` before pass number `i` has ended. -/
theorem runPasses_steady (names : List String) (s z : String)
    (instances : List ServiceEntry) (hinst : instances ≠ [])
    (hcarry : ∀ e, e ∈ instances → e.Service.Service = s) (c : Client) (u : Bool)
    (st : State) (worlds : Nat → Nat → World)
    (hc : st.ConsulClient = some c) (hdistinct : names.Nodup) (hs : s ∈ names)
    (hreg : ∀ k j, SteadyRegistry names s z instances (worlds k j))
    (hcache : u = true →
      SteadyCache names s z instances (fun item => ExpiredAtEveryRead item worlds) st)
    (i : Nat)
    (hrangeS : 0 ≤ (counterOf st s).val ∧ (counterOf st s).val + (i : Int) < maxInt)
    (hrangeT : ∀ t, t ≠ s → CounterInUse st names u worlds t →
      0 ≤ (counterOf st t).val ∧
        (counterOf st t).val + (((i + 1) * names.length : Nat) : Int) ≤ maxInt) :
    ∀ k, k ≤ i →
      (runPasses st names RoundRobinStrategy u worlds k).ConsulClient = some c ∧
      (u = true → SteadyCache names s z instances (fun item => ExpiredAtEveryRead item worlds)
        (runPasses st names RoundRobinStrategy u worlds k)) ∧
      (u = true → ∀ y item, y ∈ names →
        getCache (runPasses st names RoundRobinStrategy u worlds k) y = some item →
        MayBeFetched st u worlds y item.services) ∧
      (∀ t, (counterOf st t).val ≤
          (counterOf (runPasses st names RoundRobinStrategy u worlds k) t).val ∧
        (counterOf (runPasses st names RoundRobinStrategy u worlds k) t).val ≤
          (counterOf st t).val + ((k * names.length : Nat) : Int)) ∧
      (counterOf (runPasses st names RoundRobinStrategy u worlds k) s).val =
        (counterOf st s).val + (k : Int) ∧
      runPasses st names RoundRobinStrategy u worlds (k + 1) =
        (resolveLoop (runPasses st names RoundRobinStrategy u worlds k) names
          RoundRobinStrategy u (worlds k)).2 ∧
      (∃ e, instances[((counterOf (runPasses st names RoundRobinStrategy u worlds k) s).val %
            (instances.length : Int)).toNat]? = some e ∧
          GetServiceResult (runPasses st names RoundRobinStrategy u worlds (k + 1)) s =
            some (successResult s e)) ∧
      (z ∈ names →
        GetServiceResult (runPasses st names RoundRobinStrategy u worlds (k + 1)) z =
          some (failedResult z)) := by
  have hnames : names ≠ [] := by
    intro e
    rw [e] at hs
    simp at hs
  have hstep : ∀ k, (runPasses st names RoundRobinStrategy u worlds k).ConsulClient = some c →
      runPasses st names RoundRobinStrategy u worlds (k + 1) =
        (resolveLoop (runPasses st names RoundRobinStrategy u worlds k) names
          RoundRobinStrategy u (worlds k)).2 := by
    intro k hck
    show (SelectServiceFromNames (runPasses st names RoundRobinStrategy u worlds k) names
      RoundRobinStrategy u (worlds k)).2 = _
    exact (SelectServiceFromNames_run _ names RoundRobinStrategy u (worlds k)
      (by rw [hck]; simp) hnames).1
  -- what one pass gives, from the facts about the state before it
  have hpass : ∀ k, k ≤ i →
      (runPasses st names RoundRobinStrategy u worlds k).ConsulClient = some c →
      (u = true → SteadyCache names s z instances (fun item => ExpiredAtEveryRead item worlds)
        (runPasses st names RoundRobinStrategy u worlds k)) →
      (u = true → ∀ y item, y ∈ names →
        getCache (runPasses st names RoundRobinStrategy u worlds k) y = some item →
        MayBeFetched st u worlds y item.services) →
      (∀ t, (counterOf st t).val ≤
          (counterOf (runPasses st names RoundRobinStrategy u worlds k) t).val ∧
        (counterOf (runPasses st names RoundRobinStrategy u worlds k) t).val ≤
          (counterOf st t).val + ((k * names.length : Nat) : Int)) →
      (counterOf (runPasses st names RoundRobinStrategy u worlds k) s).val =
        (counterOf st s).val + (k : Int) →
      (resolveLoop (runPasses st names RoundRobinStrategy u worlds k) names
          RoundRobinStrategy u (worlds k)).2.ConsulClient = some c ∧
      (u = true → SteadyCache names s z instances (fun item => ExpiredAtEveryRead item worlds)
        (resolveLoop (runPasses st names RoundRobinStrategy u worlds k) names
          RoundRobinStrategy u (worlds k)).2) ∧
      (u = true → ∀ y item, y ∈ names →
        getCache (resolveLoop (runPasses st names RoundRobinStrategy u worlds k) names
          RoundRobinStrategy u (worlds k)).2 y = some item →
        MayBeFetched st u worlds y item.services) ∧
      (∀ t, (counterOf (runPasses st names RoundRobinStrategy u worlds k) t).val ≤
          (counterOf (resolveLoop (runPasses st names RoundRobinStrategy u worlds k) names
            RoundRobinStrategy u (worlds k)).2 t).val ∧
        (counterOf (resolveLoop (runPasses st names RoundRobinStrategy u worlds k) names
            RoundRobinStrategy u (worlds k)).2 t).val ≤
          (counterOf (runPasses st names RoundRobinStrategy u worlds k) t).val +
            (names.length : Int)) ∧
      ((counterOf (resolveLoop (runPasses st names RoundRobinStrategy u worlds k) names
            RoundRobinStrategy u (worlds k)).2 s).val =
          (counterOf (runPasses st names RoundRobinStrategy u worlds k) s).val + 1 ∧
        ∃ e, instances[((counterOf (runPasses st names RoundRobinStrategy u worlds k) s).val %
              (instances.length : Int)).toNat]? = some e ∧
          GetServiceResult (resolveLoop (runPasses st names RoundRobinStrategy u worlds k) names
            RoundRobinStrategy u (worlds k)).2 s = some (successResult s e)) ∧
      (z ∈ names →
        GetServiceResult (resolveLoop (runPasses st names RoundRobinStrategy u worlds k) names
          RoundRobinStrategy u (worlds k)).2 z = some (failedResult z)) := by
    intro k hk ihc ihcache ihQ ihcnt ihs
    have hmul1 : (k + 1) * names.length ≤ (i + 1) * names.length :=
      Nat.mul_le_mul_right _ (by omega)
    have hmul2 : (k + 1) * names.length = k * names.length + names.length := Nat.succ_mul _ _
    have h3 : (((k + 1) * names.length : Nat) : Int) ≤ (((i + 1) * names.length : Nat) : Int) :=
      by exact_mod_cast hmul1
    have h4 : (((k + 1) * names.length : Nat) : Int) =
        ((k * names.length : Nat) : Int) + (names.length : Int) := by exact_mod_cast hmul2
    have hcntS : 0 ≤ (counterOf (runPasses st names RoundRobinStrategy u worlds k) s).val ∧
        (s ∈ names →
          (counterOf (runPasses st names RoundRobinStrategy u worlds k) s).val < maxInt) := by
      rw [ihs]
      have hk' : (k : Int) ≤ (i : Int) := by exact_mod_cast hk
      have hk0 : (0 : Int) ≤ (k : Int) := Int.natCast_nonneg _
      refine ⟨by omega, fun _ => by omega⟩
    have hcntT : ∀ y first rest, y ∈ names → MayBeFetched st u worlds y (first :: rest) →
        first.Service.Service ≠ s →
        0 ≤ (counterOf (runPasses st names RoundRobinStrategy u worlds k)
            first.Service.Service).val ∧
          (counterOf (runPasses st names RoundRobinStrategy u worlds k)
            first.Service.Service).val + (names.length : Int) ≤ maxInt := by
      intro y first rest hy hQ hname
      have h1 := ihcnt first.Service.Service
      have h2 := hrangeT first.Service.Service hname ⟨y, first, rest, hy, hQ, rfl⟩
      omega
    obtain ⟨-, l2, l3, lQ, l4, -, l6, l7⟩ :=
      resolveLoop_steady names s z instances (fun item => ExpiredAtEveryRead item worlds) hinst
        hcarry c u (MayBeFetched st u worlds) names
        (runPasses st names RoundRobinStrategy u worlds k) (worlds k)
        (fun _ h => h) hdistinct ihc (hreg k) ihcache (fun item h j => h k j)
        (fun j y l1 _ h => Or.inl ⟨k, j, h⟩) ihQ hcntS hcntT
    exact ⟨l2, l3, lQ, l4, l6 hs, l7⟩
  have hbase : ∀ k,
      (runPasses st names RoundRobinStrategy u worlds k).ConsulClient = some c ∧
      (u = true → SteadyCache names s z instances (fun item => ExpiredAtEveryRead item worlds)
        (runPasses st names RoundRobinStrategy u worlds k)) ∧
      (u = true → ∀ y item, y ∈ names →
        getCache (runPasses st names RoundRobinStrategy u worlds k) y = some item →
        MayBeFetched st u worlds y item.services) ∧
      (∀ t, (counterOf st t).val ≤
          (counterOf (runPasses st names RoundRobinStrategy u worlds k) t).val ∧
        (counterOf (runPasses st names RoundRobinStrategy u worlds k) t).val ≤
          (counterOf st t).val + ((k * names.length : Nat) : Int)) ∧
      (counterOf (runPasses st names RoundRobinStrategy u worlds k) s).val =
        (counterOf st s).val + (k : Int) →
      k ≤ i →
      runPasses st names RoundRobinStrategy u worlds (k + 1) =
        (resolveLoop (runPasses st names RoundRobinStrategy u worlds k) names
          RoundRobinStrategy u (worlds k)).2 ∧
      (∃ e, instances[((counterOf (runPasses st names RoundRobinStrategy u worlds k) s).val %
            (instances.length : Int)).toNat]? = some e ∧
          GetServiceResult (runPasses st names RoundRobinStrategy u worlds (k + 1)) s =
            some (successResult s e)) ∧
      (z ∈ names →
        GetServiceResult (runPasses st names RoundRobinStrategy u worlds (k + 1)) z =
          some (failedResult z)) := by
    intro k ⟨ihc, ihcache, ihQ, ihcnt, ihs⟩ hk
    obtain ⟨-, -, -, -, ⟨-, e, he, hget⟩, p6⟩ := hpass k hk ihc ihcache ihQ ihcnt ihs
    rw [hstep k ihc]
    exact ⟨rfl, ⟨e, he, hget⟩, p6⟩
  have hinv : ∀ k, k ≤ i →
      (runPasses st names RoundRobinStrategy u worlds k).ConsulClient = some c ∧
      (u = true → SteadyCache names s z instances (fun item => ExpiredAtEveryRead item worlds)
        (runPasses st names RoundRobinStrategy u worlds k)) ∧
      (u = true → ∀ y item, y ∈ names →
        getCache (runPasses st names RoundRobinStrategy u worlds k) y = some item →
        MayBeFetched st u worlds y item.services) ∧
      (∀ t, (counterOf st t).val ≤
          (counterOf (runPasses st names RoundRobinStrategy u worlds k) t).val ∧
        (counterOf (runPasses st names RoundRobinStrategy u worlds k) t).val ≤
          (counterOf st t).val + ((k * names.length : Nat) : Int)) ∧
      (counterOf (runPasses st names RoundRobinStrategy u worlds k) s).val =
        (counterOf st s).val + (k : Int) := by
    intro k
    induction k with
    | zero =>
      intro _
      refine ⟨hc, hcache, ?_, ?_, ?_⟩
      · intro hu y item _ hg
        exact Or.inr ⟨hu, item, hg, rfl⟩
      · intro t
        have h : runPasses st names RoundRobinStrategy u worlds 0 = st := rfl
        rw [h]
        simp
      · have h : runPasses st names RoundRobinStrategy u worlds 0 = st := rfl
        rw [h]
        simp
    | succ k ih =>
      intro hk
      obtain ⟨ihc, ihcache, ihQ, ihcnt, ihs⟩ := ih (by omega)
      obtain ⟨p1, p2, p3, p4, ⟨p5, -⟩, -⟩ := hpass k (by omega) ihc ihcache ihQ ihcnt ihs
      have hmul2 : (k + 1) * names.length = k * names.length + names.length := Nat.succ_mul _ _
      have h4 : (((k + 1) * names.length : Nat) : Int) =
          ((k * names.length : Nat) : Int) + (names.length : Int) := by exact_mod_cast hmul2
      rw [hstep k ihc]
      refine ⟨p1, p2, p3, ?_, ?_⟩
      · intro t
        have h1 := ihcnt t
        have h2 := p4 t
        omega
      · rw [p5, ihs]
        push_cast
        omega
  intro k hk
  obtain ⟨q1, q2, q3, q4, q5⟩ := hinv k hk
  obtain ⟨r1, r2, r3⟩ := hbase k ⟨q1, q2, q3, q4, q5⟩ hk
  exact ⟨q1, q2, q3, q4, q5, r1, r2, r3⟩

/-- C7, as amended. Repeated `round_robin` passes, with or without the cache, with an
initialised client, over a list of distinct names that contains `s` and `z`. On every pass
the registry returns the same non-empty list `instances` for `s` (each of them carrying the
service name `s`), nothing for `z`, and for no other name of the list a list whose first
endpoint carries the name `s`. When the cache is used, each cache entry present before the
first pass has expired at every read of the passes, or it holds, for `s`, exactly
`instances` and, for a name of the list other than `s` and `z`, a list whose first endpoint
does not carry the name `s` (so `z` has no unexpired entry). The counter of `s` is the
natural number `c0` and stays below `math.MaxInt64` until pass `i` has read it, and every
other counter that the passes can advance is a natural number at least `(i+1) * N` below
`math.MaxInt64`, `N` being the number of names. Then after pass number `i`
(`i = 0, 1, ...`) the result of `s` has `Success=true` and its endpoint is
`instances[(c0+i) mod n]`, and the result of `z` has `Success=false` and no endpoint. -/
theorem roundRobin_passes (st : State) (names : List String) (useCache : Bool)
    (worlds : Nat → Nat → World) (s z : String) (instances : List ServiceEntry) (c0 : Nat)
    (hclient : st.ConsulClient ≠ none) (hdistinct : names.Nodup)
    (hs : s ∈ names) (hz : z ∈ names) (hinst : instances ≠ [])
    (hcarry : ∀ e, e ∈ instances → e.Service.Service = s)
    (hregS : ∀ k j, (worlds k j).health s = .ok instances)
    (hregZ : ∀ k j, (worlds k j).health z = .ok [])
    (hother : ∀ k j y l first, y ∈ names → y ≠ s → (worlds k j).health y = .ok l →
      l.head? = some first → first.Service.Service ≠ s)
    (hcacheZ : useCache = true → ∀ item, getCache st z = some item →
      ExpiredAtEveryRead item worlds)
    (hcacheS : useCache = true → ∀ item, getCache st s = some item →
      item.services = instances ∨ ExpiredAtEveryRead item worlds)
    (hcacheY : useCache = true → ∀ y item first, y ∈ names → y ≠ s →
      getCache st y = some item → item.services.head? = some first →
      first.Service.Service ≠ s ∨ ExpiredAtEveryRead item worlds)
    (i : Nat)
    (hc0 : (counterOf st s).val = (c0 : Int))
    (hrangeS : (c0 : Int) + (i : Int) < maxInt)
    (hrangeT : ∀ t, t ≠ s → CounterInUse st names useCache worlds t →
      0 ≤ (counterOf st t).val ∧
        (counterOf st t).val + (((i + 1) * names.length : Nat) : Int) ≤ maxInt) :
    (∃ r e, GetServiceResult (runPasses st names RoundRobinStrategy useCache worlds (i + 1)) s =
          some r ∧
        r.Success = true ∧ r.ServiceEntry = some e ∧
        instances[(c0 + i) % instances.length]? = some e) ∧
    (∃ r, GetServiceResult (runPasses st names RoundRobinStrategy useCache worlds (i + 1)) z =
          some r ∧
        r.Success = false ∧ r.ServiceEntry = none) := by
  cases hcl : st.ConsulClient with
  | none => exact absurd hcl hclient
  | some c =>
    have hreg : ∀ k j, SteadyRegistry names s z instances (worlds k j) :=
      fun k j => ⟨hregS k j, hregZ k j, hother k j⟩
    have hcache : useCache = true →
        SteadyCache names s z instances (fun item => ExpiredAtEveryRead item worlds) st :=
      fun hu => ⟨hcacheZ hu, hcacheS hu, hcacheY hu⟩
    have hS : 0 ≤ (counterOf st s).val ∧ (counterOf st s).val + (i : Int) < maxInt := by
      rw [hc0]
      exact ⟨Int.natCast_nonneg _, hrangeS⟩
    obtain ⟨-, -, -, -, hcount, -, ⟨e, he, hget⟩, hzres⟩ :=
      runPasses_steady names s z instances hinst hcarry c useCache st worlds hcl hdistinct hs
        hreg hcache i hS hrangeT i (le_refl i)
    refine ⟨⟨successResult s e, e, hget, rfl, rfl, ?_⟩, ⟨failedResult z, hzres hz, rfl, rfl⟩⟩
    rw [hcount, hc0] at he
    have hidx : ((c0 : Int) + (i : Int)) = ((c0 + i : Nat) : Int) := by push_cast; rfl
    rw [hidx, index_nat] at he
    exact he

/-- Witness of C7: passes that use the cache, over `svc-a` (two instances) and `svc-b`
(none), from a state with an empty cache; after pass number 1 the second instance is
chosen. -/
theorem roundRobin_passes_witness :
    (∃ r e, GetServiceResult (runPasses readyState ["svc-a", "svc-b"] RoundRobinStrategy true
          (fun _ _ => worldA) (1 + 1)) "svc-a" = some r ∧
        r.Success = true ∧ r.ServiceEntry = some e ∧
        [instA1, instA2][(0 + 1) % [instA1, instA2].length]? = some e) ∧
    (∃ r, GetServiceResult (runPasses readyState ["svc-a", "svc-b"] RoundRobinStrategy true
          (fun _ _ => worldA) (1 + 1)) "svc-b" = some r ∧
        r.Success = false ∧ r.ServiceEntry = none) :=
  roundRobin_passes readyState ["svc-a", "svc-b"] true (fun _ _ => worldA) "svc-a" "svc-b"
    [instA1, instA2] 0 (by decide) (by decide) (by decide) (by decide) (by decide)
    (by decide) (fun _ _ => rfl) (fun _ _ => rfl)
    (by
      intro k i y l first hy hys hl hfirst
      have hyb : y = "svc-b" := by
        rcases List.mem_cons.mp hy with h | h
        · exact absurd h hys
        · simpa using h
      subst hyb
      have hl1 : l = [] := by
        have : worldA.health "svc-b" = .ok [] := rfl
        rw [this] at hl
        simpa using hl.symm
      subst hl1
      simp at hfirst)
    (fun _ item h => by cases h)
    (fun _ item h => by cases h)
    (fun _ y item first _ _ h => by cases h)
    1 rfl (by decide)
    (fun t _ _ => by
      have h : (counterOf readyState t).val = 0 := rfl
      rw [h]
      decide)

/-- Counterexample to C7 as stated. (1) `useCache=true` while the cache still holds an
unexpired entry of `svc-b`, fetched when the registry knew an instance of it: the registry
now returns no instance of `svc-b`, yet after pass 0 the result of `svc-b` has
`Success=true`. (2) `useCache=true` while the cache still holds an unexpired entry of
`svc-a` with an older list: the registry returns `instA1, instA2` on every pass, yet after
pass 0 the endpoint of `svc-a` is `instA3`. (3) Under `svc-c` the registry lists an
endpoint carrying service name `svc-a`: the counter of `svc-a` advances twice in a pass, so
after pass 1 the endpoint of `svc-a` is `instances[0]` and not `instances[(0+1) mod 2]`.
(4) The registry client is unset: the passes return an error and `svc-a` has no result at
all. (5) The counter of `svc-a` is `math.MaxInt64` before the first pass: pass 1 panics,
and the result of `svc-a` is still the one of pass 0, `instances[1]`, not
`instances[(c0+1) mod 3] = instances[2]`. -/
theorem roundRobin_passes_fail :
    (worldA.health "svc-b" = .ok [] ∧
      successOf (runPasses afterFetchB ["svc-a", "svc-b"] RoundRobinStrategy true
        (fun _ _ => worldA) 1) "svc-b" = some true) ∧
    (worldA.health "svc-a" = .ok [instA1, instA2] ∧
      (GetServiceResult (runPasses afterFetchOldA ["svc-a", "svc-b"] RoundRobinStrategy true
        (fun _ _ => worldA) 1) "svc-a").map (fun r => r.ServiceEntry) = some (some instA3) ∧
      instA3 ∉ [instA1, instA2]) ∧
    ((counterOf readyState "svc-a").val = 0 ∧
      (GetServiceResult (runPasses readyState ["svc-a", "svc-c", "svc-b"] RoundRobinStrategy
        false (fun _ _ => worldC) 2) "svc-a").map (fun r => r.ServiceEntry) =
          some (some instA1) ∧
      [instA1, instA2][(0 + 1) % 2]? = some instA2 ∧ instA1 ≠ instA2) ∧
    GetServiceResult (runPasses State.init ["svc-a", "svc-b"] RoundRobinStrategy false
      (fun _ _ => worldA) 1) "svc-a" = none ∧
    ((counterOf maxedState "svc-a").val = maxInt ∧
      (SelectServiceFromNames
        (runPasses maxedState ["svc-a", "svc-b"] RoundRobinStrategy false
          (fun _ _ => worldA3) 1)
        ["svc-a", "svc-b"] RoundRobinStrategy false (fun _ => worldA3)).1 =
          .panicked "runtime error: index out of range [-2]" ∧
      (GetServiceResult (runPasses maxedState ["svc-a", "svc-b"] RoundRobinStrategy false
        (fun _ _ => worldA3) 2) "svc-a").map (fun r => r.ServiceEntry) =
          some (some instA2) ∧
      [instA1, instA2, instA3][(maxInt.toNat + 1) % 3]? = some instA3 ∧ instA2 ≠ instA3) := by
  refine ⟨⟨rfl, ?_⟩, ⟨rfl, ?_, ?_⟩, ⟨?_, ?_, ?_, ?_⟩, ?_, ⟨?_, ?_, ?_, ?_, ?_⟩⟩ <;> decide

/-! ## The Status Table invariant -/

theorem toDigitsCore_eq (fuel : Nat) : ∀ (n : Nat) (ds : List Char), 0 < n → n < fuel →
    Nat.toDigitsCore 10 fuel n ds = (Nat.digits 10 n).reverse.map Nat.digitChar ++ ds := by
  induction fuel with
  | zero => intro n ds _ h; omega
  | succ fuel ih =>
    intro n ds hpos hlt
    rw [Nat.toDigitsCore]
    rw [Nat.digits_def' (by norm_num) hpos]
    by_cases hq : n / 10 = 0
    · simp [hq]
    · have hq1 : 0 < n / 10 := Nat.pos_of_ne_zero hq
      have hlt1 : n / 10 < fuel := by omega
      simp only [hq, if_false]
      rw [ih (n / 10) _ hq1 hlt1]
      simp

theorem toString_nat_eq (n : Nat) : toString n = decimalNat n := by
  show Nat.repr n = _
  unfold decimalNat Nat.repr Nat.toDigits
  by_cases h : n = 0
  · subst h
    rfl
  · simp only [h, if_false]
    rw [toDigitsCore_eq (n + 1) n [] (Nat.pos_of_ne_zero h) (by omega)]
    simp [List.asString]

/-- The function `Itoa` renders its argument in decimal. -/
theorem Itoa_eq_decimal (n : Int) : Itoa n = decimal n := by
  show toString n = decimal n
  cases n with
  | ofNat m =>
    have h : ¬ (Int.ofNat m < 0) := by simp
    show toString m = _
    simp only [decimal, h, if_false]
    exact toString_nat_eq m
  | negSucc m =>
    have h : Int.negSucc m < 0 := Int.negSucc_lt_zero m
    show "-" ++ toString (m + 1) = _
    simp only [decimal, h, if_true]
    rw [toString_nat_eq]
    rfl

theorem resolveName_panicked_table (st : State) (n : String) (strategy : LoadBalanceStrategy)
    (u : Bool) (w : World) (message : String)
    (h : (resolveName st n strategy u w).1 = .panicked message) :
    (resolveName st n strategy u w).2.serviceStatusMap = st.serviceStatusMap := by
  rcases (resolveName_cases st n strategy u w).2 with ⟨_, -, ht⟩ | ⟨h1, -⟩ | ⟨h1, -⟩
  · exact ht
  · rw [h1] at h
    cases h
  · rw [h1] at h
    cases h

theorem resolveName_stepWrote (st : State) (n : String) (strategy : LoadBalanceStrategy)
    (u : Bool) (w : World) (h : (resolveName st n strategy u w).1 = .returned ()) :
    ∃ r, StepWrote st n strategy u w r := by
  rcases (resolveName_cases st n strategy u w).2 with
    ⟨_, h1, -⟩ | ⟨-, -, ht⟩ | ⟨-, -, services, e, hG, hmem, ht⟩
  · rw [h1] at h
    cases h
  · exact ⟨failedResult n, ht, Or.inl rfl⟩
  · exact ⟨successResult n e, ht, Or.inr ⟨services, e, hG, hmem, rfl⟩⟩

theorem IterationStores_zero (st : State) (n : String) (rest : List String)
    (strategy : LoadBalanceStrategy) (u : Bool) (ws : Nat → World) (key : String) :
    IterationStores st (n :: rest) strategy u ws 0 key ↔
      n = key ∧ (resolveName st key strategy u (ws 0)).1 = .returned () := by
  unfold IterationStores
  constructor
  · rintro ⟨h1, -, h3⟩
    exact ⟨by simpa using h1, h3⟩
  · rintro ⟨h1, h3⟩
    exact ⟨by simp [h1], rfl, h3⟩

theorem IterationStores_succ (st : State) (n : String) (rest : List String)
    (strategy : LoadBalanceStrategy) (u : Bool) (ws : Nat → World) (j : Nat) (key : String)
    (h : (resolveName st n strategy u (ws 0)).1 = .returned ()) :
    IterationStores st (n :: rest) strategy u ws (j + 1) key ↔
      IterationStores (resolveName st n strategy u (ws 0)).2 rest strategy u
        (fun i => ws (i + 1)) j key := by
  unfold IterationStores
  rw [List.getElem?_cons_succ, List.take_succ_cons,
    resolveLoop_cons_returned st n (rest.take j) strategy u ws h]

theorem IterationStores_panicked (st : State) (n : String) (rest : List String)
    (strategy : LoadBalanceStrategy) (u : Bool) (ws : Nat → World) (message : String)
    (h : (resolveName st n strategy u (ws 0)).1 = .panicked message) (j : Nat) (key : String) :
    ¬ IterationStores st (n :: rest) strategy u ws j key := by
  intro hi
  cases j with
  | zero =>
    obtain ⟨h1, h3⟩ := (IterationStores_zero st n rest strategy u ws key).mp hi
    rw [← h1, h] at h3
    cases h3
  | succ j =>
    obtain ⟨-, h2, -⟩ := hi
    rw [List.take_succ_cons, resolveLoop_cons_panicked st n (rest.take j) strategy u ws message h]
      at h2
    cases h2

/-- Every entry of the table after the loop was there before and no iteration stored a
result of its key, or it was stored by the last iteration that stored a result of its
key. -/
theorem resolveLoop_entries (names : List String) (strategy : LoadBalanceStrategy) (u : Bool) :
    ∀ (st : State) (ws : Nat → World) (p : String × ServiceResult),
      p ∈ (resolveLoop st names strategy u ws).2.serviceStatusMap.entries →
      (p ∈ st.serviceStatusMap.entries ∧
          ∀ j, ¬ IterationStores st names strategy u ws j p.1) ∨
      ∃ i, IterationStores st names strategy u ws i p.1 ∧
        (∀ j, i < j → ¬ IterationStores st names strategy u ws j p.1) ∧
        StepWrote (resolveLoop st (names.take i) strategy u ws).2 p.1 strategy u (ws i) p.2 := by
  induction names with
  | nil =>
    intro st ws p hp
    refine Or.inl ⟨hp, ?_⟩
    intro j hi
    have h1 := hi.1
    simp at h1
  | cons n rest ih =>
    intro st ws p hp
    rcases outcome_unit_cases (resolveName st n strategy u (ws 0)).1 with hret | ⟨m, hpan⟩
    · rw [resolveLoop_cons_returned st n rest strategy u ws hret] at hp
      rcases ih _ _ p hp with ⟨h, hrest⟩ | ⟨i, hi, hlater, hw⟩
      · obtain ⟨r, hr⟩ := resolveName_stepWrote st n strategy u (ws 0) hret
        rw [hr.1] at h
        rcases (GoMap.mem_set _ _ _ _).mp h with h1 | ⟨h1, hne⟩
        · refine Or.inr ⟨0, ?_, ?_, ?_⟩
          · rw [h1]
            exact (IterationStores_zero st n rest strategy u ws n).mpr ⟨rfl, hret⟩
          · intro j hj hstores
            obtain ⟨j1, rfl⟩ : ∃ j1, j = j1 + 1 := ⟨j - 1, by omega⟩
            exact hrest j1 ((IterationStores_succ st n rest strategy u ws j1 p.1 hret).mp hstores)
          · rw [h1]
            exact hr
        · refine Or.inl ⟨h1, ?_⟩
          intro j hstores
          cases j with
          | zero =>
            exact hne ((IterationStores_zero st n rest strategy u ws p.1).mp hstores).1.symm
          | succ j1 =>
            exact hrest j1 ((IterationStores_succ st n rest strategy u ws j1 p.1 hret).mp hstores)
      · refine Or.inr ⟨i + 1, ?_, ?_, ?_⟩
        · exact (IterationStores_succ st n rest strategy u ws i p.1 hret).mpr hi
        · intro j hj hstores
          obtain ⟨j1, rfl⟩ : ∃ j1, j = j1 + 1 := ⟨j - 1, by omega⟩
          exact hlater j1 (by omega)
            ((IterationStores_succ st n rest strategy u ws j1 p.1 hret).mp hstores)
        · rw [List.take_succ_cons, resolveLoop_cons_returned st n (rest.take i) strategy u ws hret]
          exact hw
    · rw [resolveLoop_cons_panicked st n rest strategy u ws m hpan] at hp
      dsimp only at hp
      rw [resolveName_panicked_table st n strategy u (ws 0) m hpan] at hp
      exact Or.inl ⟨hp, fun j => IterationStores_panicked st n rest strategy u ws m hpan j p.1⟩

/-- Every entry of the table after a sequence of calls was there before the calls and no
call stored a result of its key, or it was written by the last pass that stored a result
of its key. -/
theorem runCalls_entries (calls : List Call) :
    ∀ (st : State) (p : String × ServiceResult),
      p ∈ (runCalls st calls).serviceStatusMap.entries →
      (p ∈ st.serviceStatusMap.entries ∧ Untouched st calls p.1) ∨
        WrittenByPass st calls p.1 p.2 := by
  induction calls with
  | nil => intro st p hp; exact Or.inl ⟨hp, trivial⟩
  | cons c rest ih =>
    intro st p hp
    have hrun : runCalls st (c :: rest) =
        runCalls (SelectServiceFromNames st c.serviceNames c.strategy c.useCache c.worlds).2
          rest := rfl
    rw [hrun] at hp
    rcases ih _ p hp with ⟨h, hun⟩ | ⟨pre, c1, post, i, hsplit, hok, hi, hlater, hw, hun⟩
    · by_cases hg : PassedGuards st c
      · have hst := (SelectServiceFromNames_run st c.serviceNames c.strategy c.useCache c.worlds
          hg.1 hg.2).1
        rw [hst] at h
        rcases resolveLoop_entries _ _ _ st c.worlds p h with ⟨h1, hnot⟩ | ⟨i, hi, hlater, hw⟩
        · exact Or.inl ⟨h1, fun ⟨_, j, hj⟩ => hnot j hj, hun⟩
        · exact Or.inr ⟨[], c, rest, i, rfl, hg, hi, hlater, hw, hun⟩
      · have hguard : st.ConsulClient = none ∨ c.serviceNames = [] := by
          by_contra hcon
          exact hg ⟨fun e => hcon (Or.inl e), fun e => hcon (Or.inr e)⟩
        obtain ⟨msg, hmsg⟩ :=
          SelectServiceFromNames_guarded st c.serviceNames c.strategy c.useCache c.worlds hguard
        rw [hmsg] at h
        exact Or.inl ⟨h, fun ⟨hpg, _⟩ => hg hpg, hun⟩
    · exact Or.inr ⟨c :: pre, c1, post, i, by simp [hsplit], hok, hi, hlater, hw, hun⟩

/-- C8. Start from an empty Status Table and run any sequence of `SelectServiceFromNames`
calls (a call may return an error, return nil or panic). Every entry `(key, r)` of the
resulting table satisfies: `r.ServiceName = key`; if `r.Success = true` then
`r.ServiceEntry` is an endpoint `e`, `r.BaseURL` is `"http://" + e.Address + ":" +` the
decimal rendering of `e.Port`, and `e` is one of the endpoints fetched for `key` in the
pass that wrote `r` (`FetchedInPass`); if `r.Success = false` then `r.ServiceEntry` is nil
and `r.BaseURL` is the empty string. -/
theorem statusTable_invariant (st : State) (hempty : st.serviceStatusMap = GoMap.empty)
    (calls : List Call) (key : String) (r : ServiceResult)
    (hentry : (key, r) ∈ (runCalls st calls).serviceStatusMap.entries) :
    r.ServiceName = key ∧
    (r.Success = true →
      ∃ e, r.ServiceEntry = some e ∧
        r.BaseURL = "http://" ++ e.Service.Address ++ ":" ++ decimal e.Service.Port ∧
        FetchedInPass st calls key r e) ∧
    (r.Success = false → r.ServiceEntry = none ∧ r.BaseURL = "") := by
  rcases runCalls_entries calls st (key, r) hentry with ⟨h, -⟩ | h
  · rw [hempty] at h
    simp [GoMap.empty] at h
  · obtain ⟨pre, c, post, i, hsplit, hok, hi, hlater, ⟨hstored, hr⟩, hun⟩ := h
    rcases hr with hr | ⟨services, e, hG, hmem, hr⟩
    · dsimp only at hr
      subst hr
      simp [failedResult]
    · dsimp only at hi hlater hstored hG hr hun
      subst hr
      refine ⟨rfl, fun _ => ⟨e, rfl, ?_, ?_⟩, fun h => by simp [successResult] at h⟩
      · show "http://" ++ e.Service.Address ++ ":" ++ Itoa e.Service.Port = _
        rw [Itoa_eq_decimal]
      · exact ⟨pre, c, post, i, services, hsplit, hok, hi, hlater, hG, hmem, hstored, hun⟩

/-- Witness of C8: after one pass over `svc-a` and `svc-b`, the entry of `svc-a` is the
result with the endpoint `instA1` and the URL `http://10.0.0.1:8080`. -/
theorem statusTable_invariant_witness :
    "svc-a" = "svc-a" ∧
    (true = true →
      ∃ e, some instA1 = some e ∧
        "http://10.0.0.1:8080" = "http://" ++ e.Service.Address ++ ":" ++ decimal e.Service.Port ∧
        FetchedInPass readyState
          [{ serviceNames := ["svc-a", "svc-b"], strategy := RoundRobinStrategy,
             useCache := false, worlds := fun _ => worldA }]
          "svc-a"
          { ServiceName := "svc-a", ServiceEntry := some instA1,
            BaseURL := "http://10.0.0.1:8080", Success := true } e) ∧
    (true = false → some instA1 = none ∧ "http://10.0.0.1:8080" = "") :=
  statusTable_invariant readyState rfl
    [{ serviceNames := ["svc-a", "svc-b"], strategy := RoundRobinStrategy,
       useCache := false, worlds := fun _ => worldA }]
    "svc-a"
    { ServiceName := "svc-a", ServiceEntry := some instA1,
      BaseURL := "http://10.0.0.1:8080", Success := true }
    (by decide)

end ConsulUtil
